import Mathlib

/-!
Verification of the MEIO Shop v1 pipeline (src/MEIO.py).

The program manipulates pandas DataFrames.  We shallowly embed a DataFrame
as an ordered list of column names together with rows of cells aligned
positionally with the columns.  A cell is either missing (`na`, modelling
NaN / an unmatched left-join slot), a number, or a string.  Numbers are
taken in a parametric ordered field; the join / filter layer is stated
generically (instantiated at `ℚ` for decidable witnesses), while the
Method-5 optimizer, which needs `x ** 0.5`, is embedded at `ℝ` with
`Real.sqrt`.
-/

namespace MEIO

/-- A DataFrame cell: missing (NaN), numeric, or string valued. -/
inductive Cell (α : Type) where
  | na : Cell α
  | num : α → Cell α
  | str : String → Cell α
deriving DecidableEq

/-- A row is the list of cells aligned with the table's column list. -/
abbrev Row (α : Type) := List (Cell α)

/-- A DataFrame: ordered column names and rows aligned positionally. -/
structure Table (α : Type) where
  cols : List String
  rows : List (Row α)
deriving DecidableEq

/-- Rows of a well-formed table all have exactly one cell per column. -/
def Table.WF {α : Type} (t : Table α) : Prop :=
  ∀ r ∈ t.rows, r.length = t.cols.length

instance {α : Type} [DecidableEq α] (t : Table α) : Decidable t.WF := by
  unfold Table.WF; infer_instance

/-- Cell at a positional index; out-of-range reads are missing (NaN). -/
def cellAt {α : Type} : List (Cell α) → Nat → Cell α
  | [], _ => .na
  | v :: _, 0 => v
  | _ :: r, n + 1 => cellAt r n

/-- Row at a positional index; out-of-range reads give the empty row. -/
def rowAt {α : Type} : List (Row α) → Nat → Row α
  | [], _ => []
  | r :: _, 0 => r
  | _ :: rs, n + 1 => rowAt rs n

/-- Index of the first column with the given name (the list's length when
the name is absent, so that `cellAt` reads it as missing). -/
def idxOfCol (c : String) : List String → Nat
  | [] => 0
  | c' :: cs => if c' = c then 0 else idxOfCol c cs + 1

/-- Value of the named column in a row (label-based indexing, as
`df[name]` does per row). -/
def getCell {α : Type} (cols : List String) (r : Row α) (c : String) : Cell α :=
  cellAt r (idxOfCol c cols)

/-- The named column of a table as a list of cells (a pandas Series). -/
def Table.getCol {α : Type} (t : Table α) (c : String) : List (Cell α) :=
  t.rows.map (fun r => getCell t.cols r c)

/-- Column assignment `df[c] = vals`: overwrite the column in place if the
name exists, otherwise append it as a new last column. -/
def Table.setCol {α : Type} (t : Table α) (c : String) (vals : List (Cell α)) :
    Table α :=
  if c ∈ t.cols then
    ⟨t.cols, (t.rows.zip vals).map (fun p => p.1.set (idxOfCol c t.cols) p.2)⟩
  else
    ⟨t.cols ++ [c], (t.rows.zip vals).map (fun p => p.1 ++ [p.2])⟩

/-- Cell of the `i`-th row of a table under the named column. -/
def tableAt {α : Type} (t : Table α) (i : Nat) (c : String) : Cell α :=
  getCell t.cols (rowAt t.rows i) c

/-- Elementwise product of two cells; any operand that is not a number
(missing, or a string) propagates as missing, as NaN does in pandas. -/
def cellMul {α : Type} [Mul α] : Cell α → Cell α → Cell α
  | .num a, .num b => .num (a * b)
  | _, _ => .na

/-- Elementwise sum of two cells, missing-propagating. -/
def cellAdd {α : Type} [Add α] : Cell α → Cell α → Cell α
  | .num a, .num b => .num (a + b)
  | _, _ => .na

/-- Absolute value of a cell (`Series.abs`), missing-propagating. -/
def cellAbs {α : Type} [Lattice α] [AddGroup α] : Cell α → Cell α
  | .num a => .num |a|
  | _ => .na

/-- A cell a numeric-dtype column may hold: a number or NaN. -/
def isNumCell {α : Type} : Cell α → Bool
  | .str _ => false
  | _ => true

section Sanity

example : cellAt (α := ℚ) [.num 3, .na] 1 = .na := rfl

example : idxOfCol "b" ["a", "b", "c"] = 1 := by decide

example :
    (Table.setCol ⟨["a"], [[Cell.num (3 : ℚ)]]⟩ "b" [.num 5]).cols = ["a", "b"] := by
  decide

end Sanity

/-! ## Key Resolver (src/MEIO.py lines 249-262) -/

/-- The fixed ordered candidate list of join-key aliases. -/
def POTENTIAL_KEYS : List String :=
  ["material_shop", "Material_Shop", "materialShop", "SKU_Shop"]

/-- The loop over `POTENTIAL_KEYS` picking the first name present among
the sales-history columns (case-sensitive exact match); `none` when no
candidate is present, in which case the script stops (`st.stop`). -/
def joinKeyOf (cols : List String) : Option String :=
  POTENTIAL_KEYS.find? (fun k => k ∈ cols)

/-! ## Join Engine (src/MEIO.py lines 266-279) -/

/-- The rename map of `safe_merge`: a column of the incoming table that the
accumulated table also has, other than the join key, gets the
source-specific suffix appended (`right.rename(columns=...)`). -/
def renameShared (leftCols : List String) (key suffix0 : String)
    (rightCols : List String) : List String :=
  rightCols.map (fun c => if c ∈ leftCols ∧ c ≠ key then c ++ suffix0 else c)

/-- `left.merge(right, on=key, how="left")`.  Every left row is paired
with each right row sharing its key value (in right order), or with a row
of missing cells when there is no match.  Non-key columns that the two
frames still share are disambiguated by pandas with the default suffixes
`_x` (left) and `_y` (right).  The right frame's key column is dropped. -/
def mergeLeft {α : Type} [DecidableEq α] (left right : Table α) (key : String) :
    Table α :=
  let ov : String → Prop := fun c => c ≠ key ∧ c ∈ left.cols ∧ c ∈ right.cols
  let lcols := left.cols.map (fun c => if ov c then c ++ "_x" else c)
  let rcols := right.cols.map (fun c => if ov c then c ++ "_y" else c)
  let kL := idxOfCol key left.cols
  let kR := idxOfCol key right.cols
  let payloadCols := rcols.eraseIdx kR
  let rowsOut := left.rows.flatMap (fun lr =>
    let kv := cellAt lr kL
    match right.rows.filter (fun rr => cellAt rr kR = kv) with
    | [] => [lr ++ List.replicate payloadCols.length Cell.na]
    | ms => ms.map (fun rr => lr ++ rr.eraseIdx kR))
  ⟨lcols ++ payloadCols, rowsOut⟩

/-- `safe_merge(left, right, key, how="left", suffix)`: rename the shared
non-key columns of the incoming table, then left-join it on the key. -/
def safe_merge {α : Type} [DecidableEq α] (left right : Table α)
    (key suffix0 : String) : Table α :=
  mergeLeft left ⟨renameShared left.cols key suffix0 right.cols, right.rows⟩ key

/-- The data-preparation pipeline: resolve the join key from the
sales-history columns, then fold the four auxiliary tables onto the
sales history in the fixed order with their source-specific suffixes.
`none` models the two fatal outcomes that produce no working table: no
accepted key alias present (`st.stop`), or an auxiliary table missing the
key column (pandas `KeyError` aborting the script). -/
def joinEngine {α : Type} [DecidableEq α]
    (sales fcst pm pl lt : Table α) : Option (Table α) :=
  match joinKeyOf sales.cols with
  | none => none
  | some key =>
    if key ∈ fcst.cols ∧ key ∈ pm.cols ∧ key ∈ pl.cols ∧ key ∈ lt.cols then
      some (safe_merge (safe_merge (safe_merge
        (safe_merge sales fcst key "_fcst") pm key "_pm") pl key "_pl")
          lt key "_lt")
    else none

section Sanity2

example : joinKeyOf ["x", "Material_Shop", "material_shop"] = some "material_shop" := by
  decide

example :
    (joinEngine (α := ℚ) ⟨["material_shop"], [[.str "A"]]⟩
      ⟨["material_shop", "f"], [[.str "A", .num 1], [.str "A", .num 2]]⟩
      ⟨["material_shop"], []⟩ ⟨["material_shop"], []⟩
      ⟨["material_shop"], []⟩).map (fun t => t.rows.length) = some 2 := by
  decide

end Sanity2

/-! ## Statistics Deriver and Safety-Stock Optimizer
(`method5_compute_ss`, src/MEIO.py lines 137-204) -/

/-- First column of the table whose cells are all numeric or missing,
modelling `df.select_dtypes(include="number").columns[0]` (an all-NaN or
all-numeric column has a numeric dtype; any string makes it object). -/
def firstNumericCol {α : Type} (t : Table α) : Option String :=
  t.cols.find? (fun c => (t.getCol c).all isNumCell)

/-- Fallback for `avg_monthly_demand` (lines 168-174): when the column is
absent, the absolute value of the first numeric column, or `0.0`. -/
def fallbackAMD (t : Table ℝ) : Table ℝ :=
  if "avg_monthly_demand" ∈ t.cols then t else
    match firstNumericCol t with
    | some c => t.setCol "avg_monthly_demand" ((t.getCol c).map cellAbs)
    | none => t.setCol "avg_monthly_demand" (t.rows.map (fun _ => .num 0))

/-- Fallback for `demand_std` (lines 176-177): `avg_monthly_demand * 0.5`
when the column is absent. -/
def fallbackDS (t : Table ℝ) : Table ℝ :=
  if "demand_std" ∈ t.cols then t else
    t.setCol "demand_std"
      ((t.getCol "avg_monthly_demand").map (fun v => cellMul v (.num 0.5)))

/-- Fallback for `avg_lead_time` (lines 179-180): the constant `1.0` when
the column is absent. -/
def fallbackALT (t : Table ℝ) : Table ℝ :=
  if "avg_lead_time" ∈ t.cols then t else
    t.setCol "avg_lead_time" (t.rows.map (fun _ => .num 1.0))

/-- Fallback for `lead_time_std` (lines 182-183): `avg_lead_time * 0.3`
when the column is absent. -/
def fallbackLTS (t : Table ℝ) : Table ℝ :=
  if "lead_time_std" ∈ t.cols then t else
    t.setCol "lead_time_std"
      ((t.getCol "avg_lead_time").map (fun v => cellMul v (.num 0.3)))

/-- The fallback block of `method5_compute_ss` (lines 166-183): each of
the four canonical measures is synthesized only when its column is
absent, in source order. -/
def deriveFallbacks (t : Table ℝ) : Table ℝ :=
  fallbackLTS (fallbackALT (fallbackDS (fallbackAMD t)))

/-- `z_approx = 0.85 + (sl - 0.8) * (2.33 - 0.85) / (0.99 - 0.8)` followed
by `z_approx = max(0.0, z_approx)` (lines 194-195). -/
noncomputable def zApprox (sl : ℝ) : ℝ :=
  max 0 (0.85 + (sl - 0.8) * (2.33 - 0.85) / (0.99 - 0.8))

/-- `x ** 0.5` on a cell: the square root for a non-negative number,
missing otherwise (numpy yields NaN on a negative base, and NaN
propagates). -/
noncomputable def cellSqrt : Cell ℝ → Cell ℝ
  | .num x => if 0 ≤ x then .num (Real.sqrt x) else .na
  | _ => .na

/-- One element of `Series.clip(lower=lo, upper=hi)` with a scalar lower
bound and a Series upper bound (line 200).  Pandas applies the scalar
lower bound first (`max x lo`, NaN kept), then the element's upper bound
through `self.where(self <= upper, upper)` — the comparison is against
the ORIGINAL value, and a missing upper threshold is treated as no bound
(filled with `inf`).  So a number `x` becomes `max x lo` when `x ≤ hi`
(or `hi` is missing) and `hi` otherwise; a missing value stays missing. -/
noncomputable def clipCell (x : Cell ℝ) (lo : ℝ) (hi : Cell ℝ) : Cell ℝ :=
  match x with
  | .num xv =>
    match hi with
    | .num hv => if xv ≤ hv then .num (max xv lo) else .num hv
    | _ => .num (max xv lo)
  | c => c

/-- `df["risk_index"] = df["demand_std"] * demand_var_factor +
df["lead_time_std"] * lt_var_factor` (lines 187-190). -/
noncomputable def addRiskIndex (dvf ltf : ℝ) (d : Table ℝ) : Table ℝ :=
  d.setCol "risk_index"
    (List.zipWith cellAdd
      ((d.getCol "demand_std").map (fun v => cellMul v (.num dvf)))
      ((d.getCol "lead_time_std").map (fun v => cellMul v (.num ltf))))

/-- `df["SS_raw"] = z_approx * df["risk_index"] *
(df["avg_lead_time"] ** 0.5)` (line 197). -/
noncomputable def addSSRaw (sl : ℝ) (d : Table ℝ) : Table ℝ :=
  d.setCol "SS_raw"
    (List.zipWith cellMul
      ((d.getCol "risk_index").map (fun v => cellMul (.num (zApprox sl)) v))
      ((d.getCol "avg_lead_time").map cellSqrt))

/-- `df["SS_optimal"] = df["SS_raw"].clip(lower=min_ss,
upper=max_ss_mult * df["avg_monthly_demand"])` (lines 200-202). -/
noncomputable def addSSOptimal (min_ss max_ss_mult : ℝ) (d : Table ℝ) :
    Table ℝ :=
  d.setCol "SS_optimal"
    (List.zipWith (fun x a => clipCell x min_ss (cellMul (.num max_ss_mult) a))
      (d.getCol "SS_raw") (d.getCol "avg_monthly_demand"))

/-- `method5_compute_ss(merged_df, sl, min_ss, max_ss_mult,
demand_var_factor, lt_var_factor)` (lines 137-204): fallback columns,
risk index, z-factor, raw safety stock and the clipped `SS_optimal`,
assigned in source order on a copy of the input. -/
noncomputable def method5_compute_ss (t : Table ℝ) (sl min_ss max_ss_mult
    demand_var_factor lt_var_factor : ℝ) : Table ℝ :=
  addSSOptimal min_ss max_ss_mult
    (addSSRaw sl (addRiskIndex demand_var_factor lt_var_factor
      (deriveFallbacks t)))

/-! ## Result View (src/MEIO.py lines 317-335) -/

/-- Case-insensitive match of one regex character: `.` matches any
character except a newline, any other character matches itself up to
case.  This models the fragment of Python regular expressions made of
literal characters and the `.` wildcard; other metacharacters are outside
the model. -/
def charMatch (p c : Char) : Bool :=
  if p = '.' then c ≠ '\n' else p.toLower = c.toLower

/-- Does the pattern match a prefix of the character list? -/
def matchAt : List Char → List Char → Bool
  | [], _ => true
  | _ :: _, [] => false
  | p :: ps, c :: cs => charMatch p c && matchAt ps cs

/-- `re.search` over the literal-and-dot regex fragment: does the pattern
match anywhere in the list? -/
def reSearch (pat : List Char) (s : List Char) : Bool :=
  matchAt pat s ||
    match s with
    | [] => false
    | _ :: cs => reSearch pat cs

/-- `Series.str.contains(pat, case=False)` on one value: a
case-insensitive regex search (pandas defaults to `regex=True`). -/
def strContainsCI (s pat : String) : Bool :=
  reSearch pat.data s.data

/-- Case-insensitive substring containment — this second definition
follows the specification's words ("case-insensitive containment test")
rather than the source, for comparison with `strContainsCI`. -/
def specSubstrCI (s pat : String) : Bool :=
  (List.range (s.data.length + 1)).any
    (fun i => ((s.data.drop i).take pat.data.length).map Char.toLower
      = (pat.data.map Char.toLower))

/-- `astype(str)` on a cell.  NaN renders as `"nan"`.  The decimal
rendering of a numeric cell is not modelled (theorems about the filter
use string-valued keys, as the join keys are). -/
def cellToStr {α : Type} : Cell α → String
  | .str s => s
  | .na => "nan"
  | .num _ => ""

/-- Does the row pass the `SS_optimal >= min_ss_filter` mask?  A missing
value compares False, a string raises in pandas; neither is kept. -/
def cellGe {α : Type} [LinearOrder α] : Cell α → α → Bool
  | .num v, thr => thr ≤ v
  | _, _ => false

/-- The result filters (lines 327-330): when the search term is nonempty,
keep rows whose key value (as a string) matches it case-insensitively as
a regex; then keep rows with `SS_optimal >= min_ss_filter`. -/
def resultFilter {α : Type} [LinearOrder α] (t : Table α) (key : String)
    (searchTerm : String) (thr : α) : Table α :=
  let t1 : Table α :=
    if searchTerm ≠ "" then
      ⟨t.cols, t.rows.filter
        (fun r => strContainsCI (cellToStr (getCell t.cols r key)) searchTerm)⟩
    else t
  ⟨t1.cols, t1.rows.filter (fun r => cellGe (getCell t1.cols r "SS_optimal") thr)⟩

section Sanity3

example : strContainsCI "AB" "." = true := by decide

example : specSubstrCI "AB" "." = false := by decide

example : specSubstrCI "xAbCy" "abc" = true := by decide

example : strContainsCI "xAbCy" "abc" = true := by decide

end Sanity3

/-! ## Positional-access lemmas -/

theorem idxOfCol_eq_length {c : String} : ∀ {l : List String}, c ∉ l →
    idxOfCol c l = l.length := by
  intro l
  induction l with
  | nil => intro _; rfl
  | cons x xs ih =>
    intro h
    simp only [List.mem_cons, not_or] at h
    simp [idxOfCol, Ne.symm h.1, ih h.2]

theorem idxOfCol_lt_length {c : String} : ∀ {l : List String}, c ∈ l →
    idxOfCol c l < l.length := by
  intro l
  induction l with
  | nil => intro h; cases h
  | cons x xs ih =>
    intro h
    by_cases hx : x = c
    · simp [idxOfCol, hx]
    · have : c ∈ xs := by
        rcases List.mem_cons.mp h with h' | h'
        · exact absurd h'.symm hx
        · exact h'
      simpa [idxOfCol, hx] using Nat.succ_lt_succ (ih this)

theorem idxOfCol_ne {c c' : String} (hne : c ≠ c') : ∀ {l : List String},
    c ∈ l → c' ∈ l → idxOfCol c l ≠ idxOfCol c' l := by
  intro l
  induction l with
  | nil => intro h; cases h
  | cons x xs ih =>
    intro hc hc'
    by_cases hx : x = c
    · have hx' : x ≠ c' := fun h => hne (hx ▸ h ▸ rfl)
      simp [idxOfCol, hx, hx', hne]
    · by_cases hx' : x = c'
      · simp [idxOfCol, hx, hx', Ne.symm hne]
      · have hc2 : c ∈ xs := by
          rcases List.mem_cons.mp hc with h | h
          · exact absurd h.symm hx
          · exact h
        have hc2' : c' ∈ xs := by
          rcases List.mem_cons.mp hc' with h | h
          · exact absurd h.symm hx'
          · exact h
        simpa [idxOfCol, hx, hx'] using ih hc2 hc2'

theorem idxOfCol_append_left {c : String} : ∀ {l l' : List String}, c ∈ l →
    idxOfCol c (l ++ l') = idxOfCol c l := by
  intro l l'
  induction l with
  | nil => intro h; cases h
  | cons x xs ih =>
    intro h
    by_cases hx : x = c
    · simp [idxOfCol, hx]
    · have : c ∈ xs := by
        rcases List.mem_cons.mp h with h' | h'
        · exact absurd h'.symm hx
        · exact h'
      simp [idxOfCol, hx, ih this]

theorem idxOfCol_append_right {c : String} : ∀ {l l' : List String}, c ∉ l →
    idxOfCol c (l ++ l') = l.length + idxOfCol c l' := by
  intro l l'
  induction l with
  | nil => intro _; simp [idxOfCol]
  | cons x xs ih =>
    intro h
    simp only [List.mem_cons, not_or] at h
    simp [idxOfCol, Ne.symm h.1, ih h.2]
    omega

theorem cellAt_ge {α : Type} : ∀ {r : Row α} {i : Nat}, r.length ≤ i →
    cellAt r i = .na := by
  intro r
  induction r with
  | nil => intro i _; cases i <;> rfl
  | cons v vs ih =>
    intro i h
    cases i with
    | zero => simp at h
    | succ n => exact ih (by simpa using Nat.le_of_succ_le_succ h)

theorem cellAt_append_left {α : Type} : ∀ {r r' : Row α} {i : Nat},
    i < r.length → cellAt (r ++ r') i = cellAt r i := by
  intro r r' i
  induction r generalizing i with
  | nil => intro h; simp at h
  | cons v vs ih =>
    intro h
    cases i with
    | zero => rfl
    | succ n => exact ih (by simpa using Nat.lt_of_succ_lt_succ h)

theorem cellAt_append_right {α : Type} : ∀ (r r' : Row α) (i : Nat),
    cellAt (r ++ r') (r.length + i) = cellAt r' i := by
  intro r r' i
  induction r with
  | nil => simp [cellAt]
  | cons v vs ih => simpa [Nat.succ_add] using ih

theorem cellAt_set_self {α : Type} : ∀ {r : Row α} {i : Nat} {v : Cell α},
    i < r.length → cellAt (r.set i v) i = v := by
  intro r
  induction r with
  | nil => intro i v h; simp at h
  | cons x xs ih =>
    intro i v h
    cases i with
    | zero => rfl
    | succ n => exact ih (by simpa using Nat.lt_of_succ_lt_succ h)

theorem cellAt_set_ne {α : Type} : ∀ {r : Row α} {i j : Nat} {v : Cell α},
    i ≠ j → cellAt (r.set i v) j = cellAt r j := by
  intro r
  induction r with
  | nil => intro i j v _; rfl
  | cons x xs ih =>
    intro i j v h
    cases i with
    | zero =>
      cases j with
      | zero => exact absurd rfl h
      | succ m => rfl
    | succ n =>
      cases j with
      | zero => rfl
      | succ m => exact ih (fun hnm => h (by omega))

theorem cellAt_map_rowAt {α : Type} {f : Row α → Cell α} :
    ∀ {rows : List (Row α)} {i : Nat}, i < rows.length →
    cellAt (rows.map f) i = f (rowAt rows i) := by
  intro rows
  induction rows with
  | nil => intro i h; simp at h
  | cons r rs ih =>
    intro i h
    cases i with
    | zero => rfl
    | succ n => exact ih (by simpa using Nat.lt_of_succ_lt_succ h)

theorem cellAt_map_cellAt {α : Type} {f : Cell α → Cell α} :
    ∀ {vs : List (Cell α)} {i : Nat}, i < vs.length →
    cellAt (vs.map f) i = f (cellAt vs i) := by
  intro vs
  induction vs with
  | nil => intro i h; simp at h
  | cons v vs' ih =>
    intro i h
    cases i with
    | zero => rfl
    | succ n => exact ih (by simpa using Nat.lt_of_succ_lt_succ h)

theorem cellAt_zipWith {α : Type} {f : Cell α → Cell α → Cell α} :
    ∀ {l1 l2 : List (Cell α)} {i : Nat}, i < l1.length → i < l2.length →
    cellAt (List.zipWith f l1 l2) i = f (cellAt l1 i) (cellAt l2 i) := by
  intro l1
  induction l1 with
  | nil => intro l2 i h _; simp at h
  | cons x xs ih =>
    intro l2 i h1 h2
    cases l2 with
    | nil => simp at h2
    | cons y ys =>
      cases i with
      | zero => rfl
      | succ n =>
        exact ih (by simpa using Nat.lt_of_succ_lt_succ h1)
          (by simpa using Nat.lt_of_succ_lt_succ h2)

theorem rowAt_zip_map {α : Type} {f : Row α × Cell α → Row α} :
    ∀ {rows : List (Row α)} {vs : List (Cell α)} {i : Nat},
    i < rows.length → i < vs.length →
    rowAt ((rows.zip vs).map f) i = f (rowAt rows i, cellAt vs i) := by
  intro rows
  induction rows with
  | nil => intro vs i h _; simp at h
  | cons r rs ih =>
    intro vs i h1 h2
    cases vs with
    | nil => simp at h2
    | cons v vs' =>
      cases i with
      | zero => rfl
      | succ n =>
        exact ih (by simpa using Nat.lt_of_succ_lt_succ h1)
          (by simpa using Nat.lt_of_succ_lt_succ h2)

theorem rowAt_mem {α : Type} : ∀ {rows : List (Row α)} {i : Nat},
    i < rows.length → rowAt rows i ∈ rows := by
  intro rows
  induction rows with
  | nil => intro i h; simp at h
  | cons r rs ih =>
    intro i h
    cases i with
    | zero => exact List.mem_cons_self _ _
    | succ n =>
      exact List.mem_cons_of_mem _ (ih (by simpa using Nat.lt_of_succ_lt_succ h))

theorem rowAt_ge {α : Type} : ∀ {rows : List (Row α)} {i : Nat},
    rows.length ≤ i → rowAt rows i = [] := by
  intro rows
  induction rows with
  | nil => intro i _; cases i <;> rfl
  | cons r rs ih =>
    intro i h
    cases i with
    | zero => simp at h
    | succ n => exact ih (by simpa using Nat.le_of_succ_le_succ h)

/-! ## Column-assignment lemmas -/

theorem setCol_cols_of_mem {α : Type} {t : Table α} {c : String}
    {vs : List (Cell α)} (h : c ∈ t.cols) : (t.setCol c vs).cols = t.cols := by
  simp [Table.setCol, h]

theorem setCol_cols_of_not_mem {α : Type} {t : Table α} {c : String}
    {vs : List (Cell α)} (h : c ∉ t.cols) :
    (t.setCol c vs).cols = t.cols ++ [c] := by
  simp [Table.setCol, h]

theorem mem_setCol_cols_left {α : Type} {t : Table α} {c c' : String}
    {vs : List (Cell α)} (h : c' ∈ t.cols) : c' ∈ (t.setCol c vs).cols := by
  by_cases hc : c ∈ t.cols
  · rw [setCol_cols_of_mem hc]; exact h
  · rw [setCol_cols_of_not_mem hc]; exact List.mem_append_left _ h

theorem mem_setCol_cols_self {α : Type} {t : Table α} {c : String}
    {vs : List (Cell α)} : c ∈ (t.setCol c vs).cols := by
  by_cases hc : c ∈ t.cols
  · rw [setCol_cols_of_mem hc]; exact hc
  · rw [setCol_cols_of_not_mem hc]; simp

theorem setCol_rows_length {α : Type} {t : Table α} {c : String}
    {vs : List (Cell α)} (hv : vs.length = t.rows.length) :
    (t.setCol c vs).rows.length = t.rows.length := by
  by_cases hc : c ∈ t.cols <;>
    simp [Table.setCol, hc, List.length_zip, hv]

theorem getCol_length {α : Type} (t : Table α) (c : String) :
    (t.getCol c).length = t.rows.length :=
  List.length_map _ _

theorem getCol_at {α : Type} {t : Table α} {c : String} {i : Nat}
    (hi : i < t.rows.length) : cellAt (t.getCol c) i = tableAt t i c :=
  cellAt_map_rowAt hi

theorem tableAt_setCol_self {α : Type} {t : Table α} {c : String}
    {vs : List (Cell α)} {i : Nat} (hi : i < t.rows.length)
    (hv : vs.length = t.rows.length)
    (hri : (rowAt t.rows i).length = t.cols.length) :
    tableAt (t.setCol c vs) i c = cellAt vs i := by
  by_cases hc : c ∈ t.cols
  · have hrow : rowAt ((t.rows.zip vs).map
        (fun p => p.1.set (idxOfCol c t.cols) p.2)) i
        = (rowAt t.rows i).set (idxOfCol c t.cols) (cellAt vs i) :=
      rowAt_zip_map hi (hv ▸ hi)
    simp only [Table.setCol, if_pos hc, tableAt, getCell, hrow]
    exact cellAt_set_self (hri ▸ idxOfCol_lt_length hc)
  · have hrow : rowAt ((t.rows.zip vs).map (fun p => p.1 ++ [p.2])) i
        = rowAt t.rows i ++ [cellAt vs i] :=
      rowAt_zip_map hi (hv ▸ hi)
    simp only [Table.setCol, if_neg hc, tableAt, getCell, hrow]
    rw [idxOfCol_append_right hc]
    have : idxOfCol c [c] = 0 := by simp [idxOfCol]
    rw [this, ← hri, cellAt_append_right]
    rfl

theorem tableAt_setCol_ne {α : Type} {t : Table α} {c c' : String}
    {vs : List (Cell α)} {i : Nat} (hcc : c' ≠ c) (hi : i < t.rows.length)
    (hv : vs.length = t.rows.length)
    (hri : (rowAt t.rows i).length = t.cols.length) :
    tableAt (t.setCol c vs) i c' = tableAt t i c' := by
  by_cases hc : c ∈ t.cols
  · have hrow : rowAt ((t.rows.zip vs).map
        (fun p => p.1.set (idxOfCol c t.cols) p.2)) i
        = (rowAt t.rows i).set (idxOfCol c t.cols) (cellAt vs i) :=
      rowAt_zip_map hi (hv ▸ hi)
    simp only [Table.setCol, if_pos hc, tableAt, getCell, hrow]
    apply cellAt_set_ne
    by_cases hc' : c' ∈ t.cols
    · exact idxOfCol_ne (fun h => hcc h.symm) hc hc'
    · rw [idxOfCol_eq_length hc']
      exact Nat.ne_of_lt (idxOfCol_lt_length hc)
  · have hrow : rowAt ((t.rows.zip vs).map (fun p => p.1 ++ [p.2])) i
        = rowAt t.rows i ++ [cellAt vs i] :=
      rowAt_zip_map hi (hv ▸ hi)
    simp only [Table.setCol, if_neg hc, tableAt, getCell, hrow]
    by_cases hc' : c' ∈ t.cols
    · rw [idxOfCol_append_left hc']
      exact cellAt_append_left (hri ▸ idxOfCol_lt_length hc')
    · have hn : idxOfCol c' [c] = 1 := by simp [idxOfCol, Ne.symm hcc]
      have e1 : cellAt (rowAt t.rows i ++ [cellAt vs i])
          (t.cols.length + 1) = Cell.na := by
        apply cellAt_ge
        simp [hri]
      have e2 : cellAt (rowAt t.rows i) t.cols.length = Cell.na := by
        apply cellAt_ge
        simp [hri]
      rw [idxOfCol_append_right hc', idxOfCol_eq_length hc', hn, e1, e2]

theorem setCol_WF {α : Type} {t : Table α} {c : String} {vs : List (Cell α)}
    (hWF : t.WF) : (t.setCol c vs).WF := by
  intro r hr
  by_cases hc : c ∈ t.cols <;>
    simp only [Table.setCol, if_pos, if_neg, hc, ite_true, ite_false] at hr ⊢
  · rcases List.mem_map.mp hr with ⟨p, hp, rfl⟩
    rcases List.of_mem_zip hp with ⟨h1, _⟩
    simp [hWF _ h1]
  · rcases List.mem_map.mp hr with ⟨p, hp, rfl⟩
    rcases List.of_mem_zip hp with ⟨h1, _⟩
    simp [hWF _ h1]

theorem rowAt_length_of_WF {α : Type} {t : Table α} {i : Nat} (hWF : t.WF)
    (hi : i < t.rows.length) : (rowAt t.rows i).length = t.cols.length :=
  hWF _ (rowAt_mem hi)

/-! ## Step lemmas for the fallback columns -/

theorem fallbackAMD_len (t : Table ℝ) :
    (fallbackAMD t).rows.length = t.rows.length := by
  unfold fallbackAMD
  by_cases h : "avg_monthly_demand" ∈ t.cols
  · simp [h]
  · cases hfn : firstNumericCol t with
    | some c =>
      simp only [h, if_false, hfn]
      exact setCol_rows_length (by simp [getCol_length])
    | none =>
      simp only [h, if_false, hfn]
      exact setCol_rows_length (by simp)

theorem fallbackAMD_WF {t : Table ℝ} (hWF : t.WF) : (fallbackAMD t).WF := by
  unfold fallbackAMD
  by_cases h : "avg_monthly_demand" ∈ t.cols
  · simpa [h] using hWF
  · cases hfn : firstNumericCol t with
    | some c => simp only [h, if_false, hfn]; exact setCol_WF hWF
    | none => simp only [h, if_false, hfn]; exact setCol_WF hWF

theorem fallbackAMD_mem (t : Table ℝ) :
    "avg_monthly_demand" ∈ (fallbackAMD t).cols := by
  unfold fallbackAMD
  by_cases h : "avg_monthly_demand" ∈ t.cols
  · simp [h]
  · cases hfn : firstNumericCol t with
    | some c => simp only [h, if_false, hfn]; exact mem_setCol_cols_self
    | none => simp only [h, if_false, hfn]; exact mem_setCol_cols_self

theorem fallbackAMD_mem_mono {t : Table ℝ} {c : String} (h : c ∈ t.cols) :
    c ∈ (fallbackAMD t).cols := by
  unfold fallbackAMD
  by_cases h0 : "avg_monthly_demand" ∈ t.cols
  · simpa [h0] using h
  · cases hfn : firstNumericCol t with
    | some c0 => simp only [h0, if_false, hfn]; exact mem_setCol_cols_left h
    | none => simp only [h0, if_false, hfn]; exact mem_setCol_cols_left h

theorem fallbackAMD_of_present {t : Table ℝ}
    (h : "avg_monthly_demand" ∈ t.cols) : fallbackAMD t = t := by
  simp [fallbackAMD, h]

theorem fallbackAMD_at_ne {t : Table ℝ} {c : String} {i : Nat}
    (hc : c ≠ "avg_monthly_demand") (hWF : t.WF) (hi : i < t.rows.length) :
    tableAt (fallbackAMD t) i c = tableAt t i c := by
  unfold fallbackAMD
  by_cases h : "avg_monthly_demand" ∈ t.cols
  · simp [h]
  · cases hfn : firstNumericCol t with
    | some c0 =>
      simp only [h, if_false, hfn]
      exact tableAt_setCol_ne hc hi (by simp [getCol_length])
        (rowAt_length_of_WF hWF hi)
    | none =>
      simp only [h, if_false, hfn]
      exact tableAt_setCol_ne hc hi (by simp) (rowAt_length_of_WF hWF hi)

theorem fallbackAMD_at_absent_some {t : Table ℝ} {c0 : String} {i : Nat}
    (h : "avg_monthly_demand" ∉ t.cols) (hfn : firstNumericCol t = some c0)
    (hWF : t.WF) (hi : i < t.rows.length) :
    tableAt (fallbackAMD t) i "avg_monthly_demand"
      = cellAbs (tableAt t i c0) := by
  simp only [fallbackAMD, h, if_false, hfn]
  rw [tableAt_setCol_self hi (by simp [getCol_length])
    (rowAt_length_of_WF hWF hi)]
  rw [cellAt_map_cellAt (by rw [getCol_length]; exact hi), getCol_at hi]

theorem fallbackAMD_at_absent_none {t : Table ℝ} {i : Nat}
    (h : "avg_monthly_demand" ∉ t.cols) (hfn : firstNumericCol t = none)
    (hWF : t.WF) (hi : i < t.rows.length) :
    tableAt (fallbackAMD t) i "avg_monthly_demand" = .num 0 := by
  simp only [fallbackAMD, h, if_false, hfn]
  rw [tableAt_setCol_self hi (by simp) (rowAt_length_of_WF hWF hi)]
  exact cellAt_map_rowAt hi

theorem fallbackDS_len (t : Table ℝ) :
    (fallbackDS t).rows.length = t.rows.length := by
  unfold fallbackDS
  by_cases h : "demand_std" ∈ t.cols
  · simp [h]
  · simp only [h, if_false]
    exact setCol_rows_length (by simp [getCol_length])

theorem fallbackDS_WF {t : Table ℝ} (hWF : t.WF) : (fallbackDS t).WF := by
  unfold fallbackDS
  by_cases h : "demand_std" ∈ t.cols
  · simpa [h] using hWF
  · simp only [h, if_false]; exact setCol_WF hWF

theorem fallbackDS_mem (t : Table ℝ) : "demand_std" ∈ (fallbackDS t).cols := by
  unfold fallbackDS
  by_cases h : "demand_std" ∈ t.cols
  · simp [h]
  · simp only [h, if_false]; exact mem_setCol_cols_self

theorem fallbackDS_mem_mono {t : Table ℝ} {c : String} (h : c ∈ t.cols) :
    c ∈ (fallbackDS t).cols := by
  unfold fallbackDS
  by_cases h0 : "demand_std" ∈ t.cols
  · simpa [h0] using h
  · simp only [h0, if_false]; exact mem_setCol_cols_left h

theorem fallbackDS_of_present {t : Table ℝ} (h : "demand_std" ∈ t.cols) :
    fallbackDS t = t := by
  simp [fallbackDS, h]

theorem fallbackDS_at_ne {t : Table ℝ} {c : String} {i : Nat}
    (hc : c ≠ "demand_std") (hWF : t.WF) (hi : i < t.rows.length) :
    tableAt (fallbackDS t) i c = tableAt t i c := by
  unfold fallbackDS
  by_cases h : "demand_std" ∈ t.cols
  · simp [h]
  · simp only [h, if_false]
    exact tableAt_setCol_ne hc hi (by simp [getCol_length])
      (rowAt_length_of_WF hWF hi)

theorem fallbackDS_at_absent {t : Table ℝ} {i : Nat}
    (h : "demand_std" ∉ t.cols) (hWF : t.WF) (hi : i < t.rows.length) :
    tableAt (fallbackDS t) i "demand_std"
      = cellMul (tableAt t i "avg_monthly_demand") (.num 0.5) := by
  simp only [fallbackDS, h, if_false]
  rw [tableAt_setCol_self hi (by simp [getCol_length])
    (rowAt_length_of_WF hWF hi)]
  rw [cellAt_map_cellAt (by rw [getCol_length]; exact hi), getCol_at hi]

theorem fallbackALT_len (t : Table ℝ) :
    (fallbackALT t).rows.length = t.rows.length := by
  unfold fallbackALT
  by_cases h : "avg_lead_time" ∈ t.cols
  · simp [h]
  · simp only [h, if_false]
    exact setCol_rows_length (by simp)

theorem fallbackALT_WF {t : Table ℝ} (hWF : t.WF) : (fallbackALT t).WF := by
  unfold fallbackALT
  by_cases h : "avg_lead_time" ∈ t.cols
  · simpa [h] using hWF
  · simp only [h, if_false]; exact setCol_WF hWF

theorem fallbackALT_mem (t : Table ℝ) :
    "avg_lead_time" ∈ (fallbackALT t).cols := by
  unfold fallbackALT
  by_cases h : "avg_lead_time" ∈ t.cols
  · simp [h]
  · simp only [h, if_false]; exact mem_setCol_cols_self

theorem fallbackALT_mem_mono {t : Table ℝ} {c : String} (h : c ∈ t.cols) :
    c ∈ (fallbackALT t).cols := by
  unfold fallbackALT
  by_cases h0 : "avg_lead_time" ∈ t.cols
  · simpa [h0] using h
  · simp only [h0, if_false]; exact mem_setCol_cols_left h

theorem fallbackALT_of_present {t : Table ℝ} (h : "avg_lead_time" ∈ t.cols) :
    fallbackALT t = t := by
  simp [fallbackALT, h]

theorem fallbackALT_at_ne {t : Table ℝ} {c : String} {i : Nat}
    (hc : c ≠ "avg_lead_time") (hWF : t.WF) (hi : i < t.rows.length) :
    tableAt (fallbackALT t) i c = tableAt t i c := by
  unfold fallbackALT
  by_cases h : "avg_lead_time" ∈ t.cols
  · simp [h]
  · simp only [h, if_false]
    exact tableAt_setCol_ne hc hi (by simp) (rowAt_length_of_WF hWF hi)

theorem fallbackALT_at_absent {t : Table ℝ} {i : Nat}
    (h : "avg_lead_time" ∉ t.cols) (hWF : t.WF) (hi : i < t.rows.length) :
    tableAt (fallbackALT t) i "avg_lead_time" = .num 1.0 := by
  simp only [fallbackALT, h, if_false]
  rw [tableAt_setCol_self hi (by simp) (rowAt_length_of_WF hWF hi)]
  exact cellAt_map_rowAt hi

theorem fallbackLTS_len (t : Table ℝ) :
    (fallbackLTS t).rows.length = t.rows.length := by
  unfold fallbackLTS
  by_cases h : "lead_time_std" ∈ t.cols
  · simp [h]
  · simp only [h, if_false]
    exact setCol_rows_length (by simp [getCol_length])

theorem fallbackLTS_WF {t : Table ℝ} (hWF : t.WF) : (fallbackLTS t).WF := by
  unfold fallbackLTS
  by_cases h : "lead_time_std" ∈ t.cols
  · simpa [h] using hWF
  · simp only [h, if_false]; exact setCol_WF hWF

theorem fallbackLTS_mem (t : Table ℝ) :
    "lead_time_std" ∈ (fallbackLTS t).cols := by
  unfold fallbackLTS
  by_cases h : "lead_time_std" ∈ t.cols
  · simp [h]
  · simp only [h, if_false]; exact mem_setCol_cols_self

theorem fallbackLTS_mem_mono {t : Table ℝ} {c : String} (h : c ∈ t.cols) :
    c ∈ (fallbackLTS t).cols := by
  unfold fallbackLTS
  by_cases h0 : "lead_time_std" ∈ t.cols
  · simpa [h0] using h
  · simp only [h0, if_false]; exact mem_setCol_cols_left h

theorem fallbackLTS_of_present {t : Table ℝ} (h : "lead_time_std" ∈ t.cols) :
    fallbackLTS t = t := by
  simp [fallbackLTS, h]

theorem fallbackLTS_at_ne {t : Table ℝ} {c : String} {i : Nat}
    (hc : c ≠ "lead_time_std") (hWF : t.WF) (hi : i < t.rows.length) :
    tableAt (fallbackLTS t) i c = tableAt t i c := by
  unfold fallbackLTS
  by_cases h : "lead_time_std" ∈ t.cols
  · simp [h]
  · simp only [h, if_false]
    exact tableAt_setCol_ne hc hi (by simp [getCol_length])
      (rowAt_length_of_WF hWF hi)

theorem fallbackLTS_at_absent {t : Table ℝ} {i : Nat}
    (h : "lead_time_std" ∉ t.cols) (hWF : t.WF) (hi : i < t.rows.length) :
    tableAt (fallbackLTS t) i "lead_time_std"
      = cellMul (tableAt t i "avg_lead_time") (.num 0.3) := by
  simp only [fallbackLTS, h, if_false]
  rw [tableAt_setCol_self hi (by simp [getCol_length])
    (rowAt_length_of_WF hWF hi)]
  rw [cellAt_map_cellAt (by rw [getCol_length]; exact hi), getCol_at hi]

/-! ## Step lemmas for the optimizer columns -/

theorem tableAt_setCol_zipWith_maps {d : Table ℝ} {c c1 c2 : String}
    {f : Cell ℝ → Cell ℝ → Cell ℝ} {g1 g2 : Cell ℝ → Cell ℝ} {i : Nat}
    (hWF : d.WF) (hi : i < d.rows.length) :
    tableAt (d.setCol c (List.zipWith f ((d.getCol c1).map g1)
      ((d.getCol c2).map g2))) i c
      = f (g1 (tableAt d i c1)) (g2 (tableAt d i c2)) := by
  rw [tableAt_setCol_self hi (by simp [List.length_zipWith, getCol_length])
    (rowAt_length_of_WF hWF hi)]
  rw [cellAt_zipWith (by simpa [getCol_length] using hi)
    (by simpa [getCol_length] using hi)]
  rw [cellAt_map_cellAt (by rw [getCol_length]; exact hi),
    cellAt_map_cellAt (by rw [getCol_length]; exact hi),
    getCol_at hi, getCol_at hi]

theorem tableAt_setCol_zipWith_cols {d : Table ℝ} {c c1 c2 : String}
    {f : Cell ℝ → Cell ℝ → Cell ℝ} {i : Nat}
    (hWF : d.WF) (hi : i < d.rows.length) :
    tableAt (d.setCol c (List.zipWith f (d.getCol c1) (d.getCol c2))) i c
      = f (tableAt d i c1) (tableAt d i c2) := by
  rw [tableAt_setCol_self hi (by simp [List.length_zipWith, getCol_length])
    (rowAt_length_of_WF hWF hi)]
  rw [cellAt_zipWith (by simpa [getCol_length] using hi)
    (by simpa [getCol_length] using hi), getCol_at hi, getCol_at hi]

theorem addRiskIndex_len (dvf ltf : ℝ) (d : Table ℝ) :
    (addRiskIndex dvf ltf d).rows.length = d.rows.length :=
  setCol_rows_length (by simp [List.length_zipWith, getCol_length])

theorem addRiskIndex_WF {dvf ltf : ℝ} {d : Table ℝ} (hWF : d.WF) :
    (addRiskIndex dvf ltf d).WF := setCol_WF hWF

theorem addRiskIndex_mem_mono {dvf ltf : ℝ} {d : Table ℝ} {c : String}
    (h : c ∈ d.cols) : c ∈ (addRiskIndex dvf ltf d).cols :=
  mem_setCol_cols_left h

theorem addRiskIndex_mem (dvf ltf : ℝ) (d : Table ℝ) :
    "risk_index" ∈ (addRiskIndex dvf ltf d).cols := mem_setCol_cols_self

theorem addRiskIndex_at_self {dvf ltf : ℝ} {d : Table ℝ} {i : Nat}
    (hWF : d.WF) (hi : i < d.rows.length) :
    tableAt (addRiskIndex dvf ltf d) i "risk_index"
      = cellAdd (cellMul (tableAt d i "demand_std") (.num dvf))
          (cellMul (tableAt d i "lead_time_std") (.num ltf)) :=
  tableAt_setCol_zipWith_maps hWF hi

theorem addRiskIndex_at_ne {dvf ltf : ℝ} {d : Table ℝ} {c : String} {i : Nat}
    (hc : c ≠ "risk_index") (hWF : d.WF) (hi : i < d.rows.length) :
    tableAt (addRiskIndex dvf ltf d) i c = tableAt d i c :=
  tableAt_setCol_ne hc hi (by simp [List.length_zipWith, getCol_length])
    (rowAt_length_of_WF hWF hi)

theorem addSSRaw_len (sl : ℝ) (d : Table ℝ) :
    (addSSRaw sl d).rows.length = d.rows.length :=
  setCol_rows_length (by simp [List.length_zipWith, getCol_length])

theorem addSSRaw_WF {sl : ℝ} {d : Table ℝ} (hWF : d.WF) : (addSSRaw sl d).WF :=
  setCol_WF hWF

theorem addSSRaw_mem_mono {sl : ℝ} {d : Table ℝ} {c : String}
    (h : c ∈ d.cols) : c ∈ (addSSRaw sl d).cols := mem_setCol_cols_left h

theorem addSSRaw_mem (sl : ℝ) (d : Table ℝ) :
    "SS_raw" ∈ (addSSRaw sl d).cols := mem_setCol_cols_self

theorem addSSRaw_at_self {sl : ℝ} {d : Table ℝ} {i : Nat}
    (hWF : d.WF) (hi : i < d.rows.length) :
    tableAt (addSSRaw sl d) i "SS_raw"
      = cellMul (cellMul (.num (zApprox sl)) (tableAt d i "risk_index"))
          (cellSqrt (tableAt d i "avg_lead_time")) :=
  tableAt_setCol_zipWith_maps hWF hi

theorem addSSRaw_at_ne {sl : ℝ} {d : Table ℝ} {c : String} {i : Nat}
    (hc : c ≠ "SS_raw") (hWF : d.WF) (hi : i < d.rows.length) :
    tableAt (addSSRaw sl d) i c = tableAt d i c :=
  tableAt_setCol_ne hc hi (by simp [List.length_zipWith, getCol_length])
    (rowAt_length_of_WF hWF hi)

theorem addSSOptimal_len (mss mult : ℝ) (d : Table ℝ) :
    (addSSOptimal mss mult d).rows.length = d.rows.length :=
  setCol_rows_length (by simp [List.length_zipWith, getCol_length])

theorem addSSOptimal_WF {mss mult : ℝ} {d : Table ℝ} (hWF : d.WF) :
    (addSSOptimal mss mult d).WF := setCol_WF hWF

theorem addSSOptimal_mem_mono {mss mult : ℝ} {d : Table ℝ} {c : String}
    (h : c ∈ d.cols) : c ∈ (addSSOptimal mss mult d).cols :=
  mem_setCol_cols_left h

theorem addSSOptimal_mem (mss mult : ℝ) (d : Table ℝ) :
    "SS_optimal" ∈ (addSSOptimal mss mult d).cols := mem_setCol_cols_self

theorem addSSOptimal_at_self {mss mult : ℝ} {d : Table ℝ} {i : Nat}
    (hWF : d.WF) (hi : i < d.rows.length) :
    tableAt (addSSOptimal mss mult d) i "SS_optimal"
      = clipCell (tableAt d i "SS_raw") mss
          (cellMul (.num mult) (tableAt d i "avg_monthly_demand")) :=
  tableAt_setCol_zipWith_cols hWF hi

theorem addSSOptimal_at_ne {mss mult : ℝ} {d : Table ℝ} {c : String} {i : Nat}
    (hc : c ≠ "SS_optimal") (hWF : d.WF) (hi : i < d.rows.length) :
    tableAt (addSSOptimal mss mult d) i c = tableAt d i c :=
  tableAt_setCol_ne hc hi (by simp [List.length_zipWith, getCol_length])
    (rowAt_length_of_WF hWF hi)

/-! ## Composition facts for `method5_compute_ss` -/

theorem deriveFallbacks_len (t : Table ℝ) :
    (deriveFallbacks t).rows.length = t.rows.length := by
  unfold deriveFallbacks
  rw [fallbackLTS_len, fallbackALT_len, fallbackDS_len, fallbackAMD_len]

theorem deriveFallbacks_WF {t : Table ℝ} (hWF : t.WF) :
    (deriveFallbacks t).WF :=
  fallbackLTS_WF (fallbackALT_WF (fallbackDS_WF (fallbackAMD_WF hWF)))

theorem method5_len (t : Table ℝ) (sl mss mult dvf ltf : ℝ) :
    (method5_compute_ss t sl mss mult dvf ltf).rows.length
      = t.rows.length := by
  unfold method5_compute_ss
  rw [addSSOptimal_len, addSSRaw_len, addRiskIndex_len, deriveFallbacks_len]

theorem method5_WF {t : Table ℝ} {sl mss mult dvf ltf : ℝ} (hWF : t.WF) :
    (method5_compute_ss t sl mss mult dvf ltf).WF :=
  addSSOptimal_WF (addSSRaw_WF (addRiskIndex_WF (deriveFallbacks_WF hWF)))

theorem deriveFallbacks_of_present {t : Table ℝ}
    (h1 : "avg_monthly_demand" ∈ t.cols) (h2 : "demand_std" ∈ t.cols)
    (h3 : "avg_lead_time" ∈ t.cols) (h4 : "lead_time_std" ∈ t.cols) :
    deriveFallbacks t = t := by
  rw [deriveFallbacks, fallbackAMD_of_present h1, fallbackDS_of_present h2,
    fallbackALT_of_present h3, fallbackLTS_of_present h4]

/-- The clip step of the optimizer, read off the output table: for every
input table and every row, `SS_optimal` is the `SS_raw` cell clipped by
the scalar lower bound and the rowwise upper bound
`max_ss_mult * avg_monthly_demand`. -/
theorem method5_ssOptimal_eq (t : Table ℝ) (sl mss mult dvf ltf : ℝ) (i : Nat)
    (hWF : t.WF) (hi : i < t.rows.length) :
    tableAt (method5_compute_ss t sl mss mult dvf ltf) i "SS_optimal"
      = clipCell (tableAt (method5_compute_ss t sl mss mult dvf ltf) i "SS_raw")
          mss (cellMul (.num mult)
            (tableAt (method5_compute_ss t sl mss mult dvf ltf) i
              "avg_monthly_demand")) := by
  have hWF3 : (addSSRaw sl (addRiskIndex dvf ltf (deriveFallbacks t))).WF :=
    addSSRaw_WF (addRiskIndex_WF (deriveFallbacks_WF hWF))
  have hi3 : i < (addSSRaw sl (addRiskIndex dvf ltf
      (deriveFallbacks t))).rows.length := by
    rw [addSSRaw_len, addRiskIndex_len, deriveFallbacks_len]; exact hi
  have hm : method5_compute_ss t sl mss mult dvf ltf
      = addSSOptimal mss mult
        (addSSRaw sl (addRiskIndex dvf ltf (deriveFallbacks t))) := rfl
  rw [hm, addSSOptimal_at_self hWF3 hi3,
    addSSOptimal_at_ne (by decide) hWF3 hi3,
    addSSOptimal_at_ne (by decide) hWF3 hi3]

/-- Rowwise evaluation of the optimizer when the four canonical columns
are all present: the derived columns are exactly the source formulas
applied to the row's statistics, and the statistics themselves are left
untouched. -/
theorem method5_rowEval (t : Table ℝ) (sl mss mult dvf ltf : ℝ) (i : Nat)
    (hWF : t.WF) (hi : i < t.rows.length)
    (h1 : "avg_monthly_demand" ∈ t.cols) (h2 : "demand_std" ∈ t.cols)
    (h3 : "avg_lead_time" ∈ t.cols) (h4 : "lead_time_std" ∈ t.cols) :
    tableAt (method5_compute_ss t sl mss mult dvf ltf) i "risk_index"
      = cellAdd (cellMul (tableAt t i "demand_std") (.num dvf))
          (cellMul (tableAt t i "lead_time_std") (.num ltf))
    ∧ tableAt (method5_compute_ss t sl mss mult dvf ltf) i "SS_raw"
      = cellMul (cellMul (.num (zApprox sl))
          (cellAdd (cellMul (tableAt t i "demand_std") (.num dvf))
            (cellMul (tableAt t i "lead_time_std") (.num ltf))))
          (cellSqrt (tableAt t i "avg_lead_time"))
    ∧ tableAt (method5_compute_ss t sl mss mult dvf ltf) i "SS_optimal"
      = clipCell
          (cellMul (cellMul (.num (zApprox sl))
            (cellAdd (cellMul (tableAt t i "demand_std") (.num dvf))
              (cellMul (tableAt t i "lead_time_std") (.num ltf))))
            (cellSqrt (tableAt t i "avg_lead_time")))
          mss (cellMul (.num mult) (tableAt t i "avg_monthly_demand"))
    ∧ tableAt (method5_compute_ss t sl mss mult dvf ltf) i "avg_monthly_demand"
      = tableAt t i "avg_monthly_demand"
    ∧ tableAt (method5_compute_ss t sl mss mult dvf ltf) i "demand_std"
      = tableAt t i "demand_std"
    ∧ tableAt (method5_compute_ss t sl mss mult dvf ltf) i "avg_lead_time"
      = tableAt t i "avg_lead_time"
    ∧ tableAt (method5_compute_ss t sl mss mult dvf ltf) i "lead_time_std"
      = tableAt t i "lead_time_std" := by
  have hdf : deriveFallbacks t = t := deriveFallbacks_of_present h1 h2 h3 h4
  have hWF1 : (addRiskIndex dvf ltf t).WF := addRiskIndex_WF hWF
  have hi1 : i < (addRiskIndex dvf ltf t).rows.length := by
    rw [addRiskIndex_len]; exact hi
  have hWF2 : (addSSRaw sl (addRiskIndex dvf ltf t)).WF := addSSRaw_WF hWF1
  have hi2 : i < (addSSRaw sl (addRiskIndex dvf ltf t)).rows.length := by
    rw [addSSRaw_len]; exact hi1
  have hm : method5_compute_ss t sl mss mult dvf ltf
      = addSSOptimal mss mult (addSSRaw sl (addRiskIndex dvf ltf t)) := by
    rw [method5_compute_ss, hdf]
  have hrisk1 : tableAt (addRiskIndex dvf ltf t) i "risk_index"
      = cellAdd (cellMul (tableAt t i "demand_std") (.num dvf))
          (cellMul (tableAt t i "lead_time_std") (.num ltf)) :=
    addRiskIndex_at_self hWF hi
  have halt1 : tableAt (addRiskIndex dvf ltf t) i "avg_lead_time"
      = tableAt t i "avg_lead_time" := addRiskIndex_at_ne (by decide) hWF hi
  have hamd1 : tableAt (addRiskIndex dvf ltf t) i "avg_monthly_demand"
      = tableAt t i "avg_monthly_demand" := addRiskIndex_at_ne (by decide) hWF hi
  have hds1 : tableAt (addRiskIndex dvf ltf t) i "demand_std"
      = tableAt t i "demand_std" := addRiskIndex_at_ne (by decide) hWF hi
  have hlts1 : tableAt (addRiskIndex dvf ltf t) i "lead_time_std"
      = tableAt t i "lead_time_std" := addRiskIndex_at_ne (by decide) hWF hi
  have hssraw2 : tableAt (addSSRaw sl (addRiskIndex dvf ltf t)) i "SS_raw"
      = cellMul (cellMul (.num (zApprox sl))
          (cellAdd (cellMul (tableAt t i "demand_std") (.num dvf))
            (cellMul (tableAt t i "lead_time_std") (.num ltf))))
          (cellSqrt (tableAt t i "avg_lead_time")) := by
    rw [addSSRaw_at_self hWF1 hi1, hrisk1, halt1]
  have hrisk2 : tableAt (addSSRaw sl (addRiskIndex dvf ltf t)) i "risk_index"
      = cellAdd (cellMul (tableAt t i "demand_std") (.num dvf))
          (cellMul (tableAt t i "lead_time_std") (.num ltf)) := by
    rw [addSSRaw_at_ne (by decide) hWF1 hi1, hrisk1]
  have hamd2 : tableAt (addSSRaw sl (addRiskIndex dvf ltf t)) i
      "avg_monthly_demand" = tableAt t i "avg_monthly_demand" := by
    rw [addSSRaw_at_ne (by decide) hWF1 hi1, hamd1]
  have hds2 : tableAt (addSSRaw sl (addRiskIndex dvf ltf t)) i "demand_std"
      = tableAt t i "demand_std" := by
    rw [addSSRaw_at_ne (by decide) hWF1 hi1, hds1]
  have halt2 : tableAt (addSSRaw sl (addRiskIndex dvf ltf t)) i "avg_lead_time"
      = tableAt t i "avg_lead_time" := by
    rw [addSSRaw_at_ne (by decide) hWF1 hi1, halt1]
  have hlts2 : tableAt (addSSRaw sl (addRiskIndex dvf ltf t)) i "lead_time_std"
      = tableAt t i "lead_time_std" := by
    rw [addSSRaw_at_ne (by decide) hWF1 hi1, hlts1]
  refine ⟨?_, ?_, ?_, ?_, ?_, ?_, ?_⟩
  · rw [hm, addSSOptimal_at_ne (by decide) hWF2 hi2, hrisk2]
  · rw [hm, addSSOptimal_at_ne (by decide) hWF2 hi2, hssraw2]
  · rw [hm, addSSOptimal_at_self hWF2 hi2, hssraw2, hamd2]
  · rw [hm, addSSOptimal_at_ne (by decide) hWF2 hi2, hamd2]
  · rw [hm, addSSOptimal_at_ne (by decide) hWF2 hi2, hds2]
  · rw [hm, addSSOptimal_at_ne (by decide) hWF2 hi2, halt2]
  · rw [hm, addSSOptimal_at_ne (by decide) hWF2 hi2, hlts2]

/-! ## Arithmetic helper lemmas -/

/-- A cell holding an actual (finite) number, as opposed to missing. -/
def isNumValue {α : Type} : Cell α → Bool
  | .num _ => true
  | _ => false

theorem clipCell_num (x lo h : ℝ) :
    clipCell (.num x) lo (.num h) = .num (if x ≤ h then max x lo else h) := by
  by_cases hxh : x ≤ h <;> simp [clipCell, hxh]

theorem clipCell_na (lo : ℝ) (hi : Cell ℝ) : clipCell .na lo hi = .na := rfl

theorem cellMul_na_right {α : Type} [Mul α] (x : Cell α) :
    cellMul x .na = .na := by cases x <;> rfl

theorem pandasClip_mono {lo h : ℝ} (hlo : lo ≤ h) {x1 x2 : ℝ} (hx : x1 ≤ x2) :
    (if x1 ≤ h then max x1 lo else h) ≤ (if x2 ≤ h then max x2 lo else h) := by
  by_cases h1 : x1 ≤ h <;> by_cases h2 : x2 ≤ h
  · rw [if_pos h1, if_pos h2]; exact max_le_max hx le_rfl
  · rw [if_pos h1, if_neg h2]; exact max_le h1 hlo
  · exact absurd (le_trans hx h2) h1
  · rw [if_neg h1, if_neg h2]

theorem zApprox_mono {sl1 sl2 : ℝ} (h : sl1 ≤ sl2) :
    zApprox sl1 ≤ zApprox sl2 := by
  unfold zApprox
  apply max_le_max le_rfl
  have hk : (0:ℝ) ≤ (2.33 - 0.85) / (0.99 - 0.8) := by norm_num
  have := mul_le_mul_of_nonneg_right (sub_le_sub_right h 0.8) hk
  calc 0.85 + (sl1 - 0.8) * (2.33 - 0.85) / (0.99 - 0.8)
      = 0.85 + (sl1 - 0.8) * ((2.33 - 0.85) / (0.99 - 0.8)) := by ring
    _ ≤ 0.85 + (sl2 - 0.8) * ((2.33 - 0.85) / (0.99 - 0.8)) := by linarith
    _ = 0.85 + (sl2 - 0.8) * (2.33 - 0.85) / (0.99 - 0.8) := by ring

theorem zApprox_eq_of_nonneg {sl : ℝ}
    (h : 0 ≤ 0.85 + (sl - 0.8) * (2.33 - 0.85) / (0.99 - 0.8)) :
    zApprox sl = 0.85 + (sl - 0.8) * (2.33 - 0.85) / (0.99 - 0.8) :=
  max_eq_right h

theorem zApprox_095 : zApprox 0.95 = 767 / 380 := by
  rw [zApprox_eq_of_nonneg (by norm_num)]
  norm_num

theorem zApprox_08 : zApprox 0.8 = 0.85 := by
  rw [zApprox_eq_of_nonneg (by norm_num)]
  norm_num

theorem zApprox_099 : zApprox 0.99 = 2.33 := by
  rw [zApprox_eq_of_nonneg (by norm_num)]
  norm_num

theorem zApprox_nonneg (sl : ℝ) : 0 ≤ zApprox sl := le_max_left 0 _

/-! ## Claim theorems -/

/-- Concrete single-row working table: `avg_monthly_demand = 0`,
`demand_std = 10`, `avg_lead_time = 1`, `lead_time_std = 0`. -/
def Tzero : Table ℝ :=
  ⟨["avg_monthly_demand", "demand_std", "avg_lead_time", "lead_time_std"],
    [[.num 0, .num 10, .num 1, .num 0]]⟩

/-- C10: for every input table and parameter set, the optimizer's output
contains all seven derived columns — the four canonical statistics,
`risk_index`, `SS_raw` and `SS_optimal` — regardless of the input schema
(the optimizer itself is a pure function of its arguments, operating on a
copy of its input). -/
theorem C10_output_columns (t : Table ℝ) (sl mss mult dvf ltf : ℝ) :
    "avg_monthly_demand" ∈ (method5_compute_ss t sl mss mult dvf ltf).cols
    ∧ "demand_std" ∈ (method5_compute_ss t sl mss mult dvf ltf).cols
    ∧ "avg_lead_time" ∈ (method5_compute_ss t sl mss mult dvf ltf).cols
    ∧ "lead_time_std" ∈ (method5_compute_ss t sl mss mult dvf ltf).cols
    ∧ "risk_index" ∈ (method5_compute_ss t sl mss mult dvf ltf).cols
    ∧ "SS_raw" ∈ (method5_compute_ss t sl mss mult dvf ltf).cols
    ∧ "SS_optimal" ∈ (method5_compute_ss t sl mss mult dvf ltf).cols := by
  have hm : method5_compute_ss t sl mss mult dvf ltf
      = addSSOptimal mss mult (addSSRaw sl (addRiskIndex dvf ltf
        (fallbackLTS (fallbackALT (fallbackDS (fallbackAMD t)))))) := rfl
  rw [hm]
  refine ⟨?_, ?_, ?_, ?_, ?_, ?_, ?_⟩
  · exact addSSOptimal_mem_mono (addSSRaw_mem_mono (addRiskIndex_mem_mono
      (fallbackLTS_mem_mono (fallbackALT_mem_mono (fallbackDS_mem_mono
        (fallbackAMD_mem t))))))
  · exact addSSOptimal_mem_mono (addSSRaw_mem_mono (addRiskIndex_mem_mono
      (fallbackLTS_mem_mono (fallbackALT_mem_mono (fallbackDS_mem _)))))
  · exact addSSOptimal_mem_mono (addSSRaw_mem_mono (addRiskIndex_mem_mono
      (fallbackLTS_mem_mono (fallbackALT_mem _))))
  · exact addSSOptimal_mem_mono (addSSRaw_mem_mono (addRiskIndex_mem_mono
      (fallbackLTS_mem _)))
  · exact addSSOptimal_mem_mono (addSSRaw_mem_mono (addRiskIndex_mem _ _ _))
  · exact addSSOptimal_mem_mono (addSSRaw_mem _ _)
  · exact addSSOptimal_mem _ _ _

/-- C5: the Key Resolver returns the first candidate of the fixed ordered
list `material_shop, Material_Shop, materialShop, SKU_Shop` present among
the sales-history columns (case-sensitive exact string match), and when
none is present the pipeline fails before any join: no working table is
produced. -/
theorem C5_key_resolver :
    (∀ cols : List String,
      joinKeyOf cols =
        if "material_shop" ∈ cols then some "material_shop"
        else if "Material_Shop" ∈ cols then some "Material_Shop"
        else if "materialShop" ∈ cols then some "materialShop"
        else if "SKU_Shop" ∈ cols then some "SKU_Shop"
        else none)
    ∧ (∀ sales fcst pm pl lt : Table ℚ, joinKeyOf sales.cols = none →
        joinEngine sales fcst pm pl lt = none) := by
  constructor
  · intro cols
    by_cases h1 : "material_shop" ∈ cols <;>
      by_cases h2 : "Material_Shop" ∈ cols <;>
        by_cases h3 : "materialShop" ∈ cols <;>
          by_cases h4 : "SKU_Shop" ∈ cols <;>
            simp [joinKeyOf, POTENTIAL_KEYS, List.find?, h1, h2, h3, h4]
  · intro sales fcst pm pl lt h
    simp [joinEngine, h]

/-- Witness for C5 at a concrete schema with no accepted alias. -/
theorem C5_witness :
    joinKeyOf ["material", "shop"] = none
    ∧ joinEngine (α := ℚ) ⟨["material", "shop"], [[.str "A", .str "B"]]⟩
        ⟨["material_shop"], []⟩ ⟨["material_shop"], []⟩
        ⟨["material_shop"], []⟩ ⟨["material_shop"], []⟩ = none :=
  ⟨by decide, C5_key_resolver.2 _ _ _ _ _ (by decide)⟩

/-- C3: for every working-table row with numeric statistics, the optimizer
computes `risk_index = demand_std * demand_var_factor + lead_time_std *
lt_var_factor`, the z-factor `max(0, 0.85 + (sl - 0.8) * (2.33 - 0.85) /
(0.99 - 0.8))`, and `SS_raw = z * risk_index * sqrt(avg_lead_time)`. -/
theorem C3_formulas (t : Table ℝ) (sl mss mult dvf ltf : ℝ) (i : Nat)
    (hWF : t.WF) (hi : i < t.rows.length)
    (h1 : "avg_monthly_demand" ∈ t.cols) (h2 : "demand_std" ∈ t.cols)
    (h3 : "avg_lead_time" ∈ t.cols) (h4 : "lead_time_std" ∈ t.cols)
    (ds ls l : ℝ)
    (hds : tableAt t i "demand_std" = .num ds)
    (hls : tableAt t i "lead_time_std" = .num ls)
    (hl : tableAt t i "avg_lead_time" = .num l) (h0l : 0 ≤ l) :
    tableAt (method5_compute_ss t sl mss mult dvf ltf) i "risk_index"
      = .num (ds * dvf + ls * ltf)
    ∧ zApprox sl = max 0 (0.85 + (sl - 0.8) * (2.33 - 0.85) / (0.99 - 0.8))
    ∧ tableAt (method5_compute_ss t sl mss mult dvf ltf) i "SS_raw"
      = .num (zApprox sl * (ds * dvf + ls * ltf) * Real.sqrt l) := by
  obtain ⟨hr, hsr, -, -, -, -, -⟩ :=
    method5_rowEval t sl mss mult dvf ltf i hWF hi h1 h2 h3 h4
  refine ⟨?_, rfl, ?_⟩
  · rw [hr, hds, hls]; rfl
  · have hcs : cellSqrt (.num l) = .num (Real.sqrt l) := by simp [cellSqrt, h0l]
    rw [hsr, hds, hls, hl, hcs]; rfl

/-- Witness for C3 on the concrete table `Tzero`. -/
theorem C3_witness :
    tableAt (method5_compute_ss Tzero 0.95 5 4 1 1) 0 "risk_index"
      = .num (10 * 1 + 0 * 1)
    ∧ tableAt (method5_compute_ss Tzero 0.95 5 4 1 1) 0 "SS_raw"
      = .num (zApprox 0.95 * (10 * 1 + 0 * 1) * Real.sqrt 1) := by
  obtain ⟨ha, -, hb⟩ := C3_formulas Tzero 0.95 5 4 1 1 0 (by decide) (by decide)
    (by decide) (by decide) (by decide) (by decide) 10 0 1 rfl rfl rfl
    (by norm_num)
  exact ⟨ha, hb⟩

/-- C1 counterexample: on `Tzero` (a row with `avg_monthly_demand = 0`,
`demand_std = 10`) with `min_safety_stock = 5`, the code yields
`SS_optimal = 0`, not the claimed `max(0, min_safety_stock) = 5`: when
the upper clip bound is below the lower one and `SS_raw` exceeds the
upper bound, pandas' clip lets the upper bound win. -/
theorem C1_counterexample :
    tableAt (method5_compute_ss Tzero 0.95 5 4 1 1) 0 "SS_optimal" = .num 0
    ∧ (0:ℝ) ≠ max 0 5 := by
  constructor
  · obtain ⟨-, -, h3, -, -, -, -⟩ := method5_rowEval Tzero 0.95 5 4 1 1 0
      (by decide) (by decide) (by decide) (by decide) (by decide) (by decide)
    have e1 : tableAt Tzero 0 "demand_std" = Cell.num 10 := rfl
    have e2 : tableAt Tzero 0 "lead_time_std" = Cell.num 0 := rfl
    have e3 : tableAt Tzero 0 "avg_lead_time" = Cell.num 1 := rfl
    have e4 : tableAt Tzero 0 "avg_monthly_demand" = Cell.num 0 := rfl
    have hcs : cellSqrt (Cell.num (1:ℝ)) = .num (Real.sqrt 1) := by
      simp [cellSqrt]
    rw [h3, e1, e2, e3, e4, hcs, Real.sqrt_one]
    simp only [cellMul, cellAdd]
    rw [clipCell_num, zApprox_095]
    norm_num
  · norm_num

/-- C1 amended: `SS_optimal` is pandas' clip of `SS_raw`: with lower
bound `min_ss` and rowwise upper bound `u = max_ss_mult *
avg_monthly_demand`, a numeric `SS_raw = x` becomes `max x min_ss` when
`x ≤ u` and `u` otherwise.  When `u ≥ min_ss` this is the ordinary clip
into `[min_ss, u]`; when `u < min_ss` the lower bound wins only for
`x ≤ u`, otherwise the upper bound does. -/
theorem C1_amended (t : Table ℝ) (sl mss mult dvf ltf : ℝ) (i : Nat)
    (hWF : t.WF) (hi : i < t.rows.length) :
    tableAt (method5_compute_ss t sl mss mult dvf ltf) i "SS_optimal"
      = clipCell (tableAt (method5_compute_ss t sl mss mult dvf ltf) i "SS_raw")
          mss (cellMul (.num mult)
            (tableAt (method5_compute_ss t sl mss mult dvf ltf) i
              "avg_monthly_demand"))
    ∧ ∀ x u : ℝ,
        tableAt (method5_compute_ss t sl mss mult dvf ltf) i "SS_raw"
          = .num x →
        cellMul (.num mult)
          (tableAt (method5_compute_ss t sl mss mult dvf ltf) i
            "avg_monthly_demand") = .num u →
        (mss ≤ u →
          tableAt (method5_compute_ss t sl mss mult dvf ltf) i "SS_optimal"
            = .num (min (max x mss) u)
          ∧ mss ≤ min (max x mss) u ∧ min (max x mss) u ≤ u)
        ∧ (u < mss →
          tableAt (method5_compute_ss t sl mss mult dvf ltf) i "SS_optimal"
            = .num (if x ≤ u then mss else u)) := by
  have hcl := method5_ssOptimal_eq t sl mss mult dvf ltf i hWF hi
  refine ⟨hcl, ?_⟩
  intro x u hx hu
  rw [hcl, hx, hu, clipCell_num]
  constructor
  · intro hord
    by_cases hxu : x ≤ u
    · rw [if_pos hxu]
      have hmin : max x mss ≤ u := max_le hxu hord
      refine ⟨by rw [min_eq_left hmin], ?_, min_le_right _ _⟩
      rw [min_eq_left hmin]
      exact le_max_right x mss
    · rw [if_neg hxu]
      have hge : u ≤ max x mss := le_trans (le_of_not_le hxu) (le_max_left x mss)
      refine ⟨by rw [min_eq_right hge], ?_, ?_⟩
      · rw [min_eq_right hge]; exact hord
      · rw [min_eq_right hge]
  · intro hinv
    by_cases hxu : x ≤ u
    · rw [if_pos hxu, if_pos hxu, max_eq_right (le_trans hxu hinv.le)]
    · rw [if_neg hxu, if_neg hxu]

/-- Concrete single-row working table with a comfortable demand level:
`avg_monthly_demand = 100`, `demand_std = 10`, `avg_lead_time = 1`,
`lead_time_std = 0`. -/
def Thund : Table ℝ :=
  ⟨["avg_monthly_demand", "demand_std", "avg_lead_time", "lead_time_std"],
    [[.num 100, .num 10, .num 1, .num 0]]⟩

/-- Witness for C1 on `Thund`, where the bounds are ordered
(`5 ≤ 4 * 100`) and the clip lands inside them. -/
theorem C1_witness :
    tableAt (method5_compute_ss Thund 0.95 5 4 1 1) 0 "SS_optimal"
      = .num (min (max (zApprox 0.95 * (10 * 1 + 0 * 1) * Real.sqrt 1) 5)
          (4 * 100))
    ∧ (5:ℝ) ≤ min (max (zApprox 0.95 * (10 * 1 + 0 * 1) * Real.sqrt 1) 5)
        (4 * 100)
    ∧ min (max (zApprox 0.95 * (10 * 1 + 0 * 1) * Real.sqrt 1) 5) (4 * 100)
        ≤ 4 * 100 := by
  have hx : tableAt (method5_compute_ss Thund 0.95 5 4 1 1) 0 "SS_raw"
      = .num (zApprox 0.95 * (10 * 1 + 0 * 1) * Real.sqrt 1) := by
    obtain ⟨-, hsr, -, -, -, -, -⟩ := method5_rowEval Thund 0.95 5 4 1 1 0
      (by decide) (by decide) (by decide) (by decide) (by decide) (by decide)
    have e1 : tableAt Thund 0 "demand_std" = Cell.num 10 := rfl
    have e2 : tableAt Thund 0 "lead_time_std" = Cell.num 0 := rfl
    have e3 : tableAt Thund 0 "avg_lead_time" = Cell.num 1 := rfl
    have hcs : cellSqrt (Cell.num (1:ℝ)) = .num (Real.sqrt 1) := by
      simp [cellSqrt]
    rw [hsr, e1, e2, e3, hcs]; rfl
  have hu : cellMul (.num 4)
      (tableAt (method5_compute_ss Thund 0.95 5 4 1 1) 0 "avg_monthly_demand")
      = .num (4 * 100) := by
    obtain ⟨-, -, -, hamd, -, -, -⟩ := method5_rowEval Thund 0.95 5 4 1 1 0
      (by decide) (by decide) (by decide) (by decide) (by decide) (by decide)
    rw [hamd]; rfl
  exact ((C1_amended Thund 0.95 5 4 1 1 0 (by decide) (by decide)).2 _ _
    hx hu).1 (by norm_num)

/-- Concrete single-row working table with inverted clip bounds for
`min_safety_stock = 5`: `avg_monthly_demand = 1`, `demand_std = 1`,
`avg_lead_time = 1`, `lead_time_std = 0`. -/
def Tinv : Table ℝ :=
  ⟨["avg_monthly_demand", "demand_std", "avg_lead_time", "lead_time_std"],
    [[.num 1, .num 1, .num 1, .num 0]]⟩

/-- C7 counterexample: on `Tinv` with `min_safety_stock = 5` and
`max_ss_mult = 1` (a valid parameter set, but with the upper clip bound
`1` below the lower bound `5`), raising the service level from 0.80 to
0.99 moves `SS_optimal` from 5 down to 1, although `risk_index = 1 > 0`
and `avg_lead_time = 1 > 0`. -/
theorem C7_counterexample :
    tableAt (method5_compute_ss Tinv 0.8 5 1 1 1) 0 "SS_optimal" = .num 5
    ∧ tableAt (method5_compute_ss Tinv 0.99 5 1 1 1) 0 "SS_optimal" = .num 1
    ∧ tableAt (method5_compute_ss Tinv 0.8 5 1 1 1) 0 "risk_index"
        = .num (1 * 1 + 0 * 1)
    ∧ (0:ℝ) < 1 * 1 + 0 * 1
    ∧ tableAt Tinv 0 "avg_lead_time" = .num 1
    ∧ (0:ℝ) < 1
    ∧ (0.8:ℝ) < 0.99
    ∧ (1:ℝ) < 5 := by
  have e1 : tableAt Tinv 0 "demand_std" = Cell.num 1 := rfl
  have e2 : tableAt Tinv 0 "lead_time_std" = Cell.num 0 := rfl
  have e3 : tableAt Tinv 0 "avg_lead_time" = Cell.num 1 := rfl
  have e4 : tableAt Tinv 0 "avg_monthly_demand" = Cell.num 1 := rfl
  have hcs : cellSqrt (Cell.num (1:ℝ)) = .num (Real.sqrt 1) := by
    simp [cellSqrt]
  refine ⟨?_, ?_, ?_, by norm_num, e3, by norm_num, by norm_num, by norm_num⟩
  · obtain ⟨-, -, h3, -, -, -, -⟩ := method5_rowEval Tinv 0.8 5 1 1 1 0
      (by decide) (by decide) (by decide) (by decide) (by decide) (by decide)
    rw [h3, e1, e2, e3, e4, hcs, Real.sqrt_one]
    simp only [cellMul, cellAdd]
    rw [clipCell_num, zApprox_08]
    norm_num [max_def]
  · obtain ⟨-, -, h3, -, -, -, -⟩ := method5_rowEval Tinv 0.99 5 1 1 1 0
      (by decide) (by decide) (by decide) (by decide) (by decide) (by decide)
    rw [h3, e1, e2, e3, e4, hcs, Real.sqrt_one]
    simp only [cellMul, cellAdd]
    rw [clipCell_num, zApprox_099]
    norm_num
  · obtain ⟨hr, -, -, -, -, -, -⟩ := method5_rowEval Tinv 0.8 5 1 1 1 0
      (by decide) (by decide) (by decide) (by decide) (by decide) (by decide)
    rw [hr, e1, e2]; rfl

/-- C7 amended: holding the working table and the other parameters fixed,
increasing the service level within [0.80, 0.99] never decreases
`SS_optimal` for a row with strictly positive risk index and lead time,
PROVIDED the clip bounds are not inverted on that row
(`min_safety_stock ≤ max_ss_mult * avg_monthly_demand`). -/
theorem C7_amended (t : Table ℝ) (sl1 sl2 mss mult dvf ltf : ℝ) (i : Nat)
    (hWF : t.WF) (hi : i < t.rows.length)
    (h1 : "avg_monthly_demand" ∈ t.cols) (h2 : "demand_std" ∈ t.cols)
    (h3 : "avg_lead_time" ∈ t.cols) (h4 : "lead_time_std" ∈ t.cols)
    (ds ls l a : ℝ)
    (hds : tableAt t i "demand_std" = .num ds)
    (hls : tableAt t i "lead_time_std" = .num ls)
    (hl : tableAt t i "avg_lead_time" = .num l)
    (ha : tableAt t i "avg_monthly_demand" = .num a)
    (hsl : sl1 ≤ sl2) (_hin1 : 0.8 ≤ sl1) (_hin2 : sl2 ≤ 0.99)
    (hrisk : 0 < ds * dvf + ls * ltf) (hl0 : 0 < l)
    (hbound : mss ≤ mult * a) :
    tableAt (method5_compute_ss t sl1 mss mult dvf ltf) i "SS_optimal"
      = .num (if zApprox sl1 * (ds * dvf + ls * ltf) * Real.sqrt l ≤ mult * a
          then max (zApprox sl1 * (ds * dvf + ls * ltf) * Real.sqrt l) mss
          else mult * a)
    ∧ tableAt (method5_compute_ss t sl2 mss mult dvf ltf) i "SS_optimal"
      = .num (if zApprox sl2 * (ds * dvf + ls * ltf) * Real.sqrt l ≤ mult * a
          then max (zApprox sl2 * (ds * dvf + ls * ltf) * Real.sqrt l) mss
          else mult * a)
    ∧ (if zApprox sl1 * (ds * dvf + ls * ltf) * Real.sqrt l ≤ mult * a
          then max (zApprox sl1 * (ds * dvf + ls * ltf) * Real.sqrt l) mss
          else mult * a)
        ≤ (if zApprox sl2 * (ds * dvf + ls * ltf) * Real.sqrt l ≤ mult * a
          then max (zApprox sl2 * (ds * dvf + ls * ltf) * Real.sqrt l) mss
          else mult * a) := by
  have hcs : cellSqrt (.num l) = .num (Real.sqrt l) := by
    simp [cellSqrt, hl0.le]
  have hv1 : tableAt (method5_compute_ss t sl1 mss mult dvf ltf) i "SS_optimal"
      = .num (if zApprox sl1 * (ds * dvf + ls * ltf) * Real.sqrt l ≤ mult * a
          then max (zApprox sl1 * (ds * dvf + ls * ltf) * Real.sqrt l) mss
          else mult * a) := by
    obtain ⟨-, -, h3', -, -, -, -⟩ :=
      method5_rowEval t sl1 mss mult dvf ltf i hWF hi h1 h2 h3 h4
    rw [h3', hds, hls, hl, ha, hcs]
    simp only [cellMul, cellAdd]
    rw [clipCell_num]
  have hv2 : tableAt (method5_compute_ss t sl2 mss mult dvf ltf) i "SS_optimal"
      = .num (if zApprox sl2 * (ds * dvf + ls * ltf) * Real.sqrt l ≤ mult * a
          then max (zApprox sl2 * (ds * dvf + ls * ltf) * Real.sqrt l) mss
          else mult * a) := by
    obtain ⟨-, -, h3', -, -, -, -⟩ :=
      method5_rowEval t sl2 mss mult dvf ltf i hWF hi h1 h2 h3 h4
    rw [h3', hds, hls, hl, ha, hcs]
    simp only [cellMul, cellAdd]
    rw [clipCell_num]
  refine ⟨hv1, hv2, ?_⟩
  apply pandasClip_mono hbound
  exact mul_le_mul_of_nonneg_right
    (mul_le_mul_of_nonneg_right (zApprox_mono hsl) hrisk.le)
    (Real.sqrt_nonneg l)

/-- Witness for C7 on `Thund`, with ordered bounds (`5 ≤ 4 * 100`). -/
theorem C7_witness :
    (if zApprox 0.8 * (10 * 1 + 0 * 1) * Real.sqrt 1 ≤ 4 * 100
        then max (zApprox 0.8 * (10 * 1 + 0 * 1) * Real.sqrt 1) 5
        else 4 * 100)
      ≤ (if zApprox 0.99 * (10 * 1 + 0 * 1) * Real.sqrt 1 ≤ 4 * 100
        then max (zApprox 0.99 * (10 * 1 + 0 * 1) * Real.sqrt 1) 5
        else 4 * 100) :=
  (C7_amended Thund 0.8 0.99 5 4 1 1 0 (by decide) (by decide) (by decide)
    (by decide) (by decide) (by decide) 10 0 1 100 rfl rfl rfl rfl
    (by norm_num) (by norm_num) (by norm_num) (by norm_num) (by norm_num)
    (by norm_num)).2.2

/-- Concrete single-row working table in which `avg_lead_time` is missing
(NaN), as a left-join leaves it on an unmatched row. -/
def Tna : Table ℝ :=
  ⟨["avg_monthly_demand", "demand_std", "avg_lead_time", "lead_time_std"],
    [[.num 1, .num 1, .na, .num 0]]⟩

/-- C9 counterexample: on a row whose `avg_lead_time` is missing (e.g.
left unmatched by the joins while the column itself exists), the
optimizer returns a missing `SS_optimal`, not a finite value. -/
theorem C9_counterexample :
    tableAt (method5_compute_ss Tna 0.95 0 4 1 1) 0 "SS_optimal" = Cell.na
    ∧ isNumValue (tableAt (method5_compute_ss Tna 0.95 0 4 1 1) 0
        "SS_optimal") = false := by
  have hmain : tableAt (method5_compute_ss Tna 0.95 0 4 1 1) 0 "SS_optimal"
      = Cell.na := by
    obtain ⟨-, -, h3, -, -, -, -⟩ := method5_rowEval Tna 0.95 0 4 1 1 0
      (by decide) (by decide) (by decide) (by decide) (by decide) (by decide)
    have e3 : tableAt Tna 0 "avg_lead_time" = Cell.na := rfl
    rw [h3, e3, show cellSqrt (Cell.na) = (Cell.na : Cell ℝ) from rfl,
      cellMul_na_right, clipCell_na]
  exact ⟨hmain, by rw [hmain]; rfl⟩

/-- C9 amended: the optimizer is a total function of its input (no error
paths in the model); it returns a finite (numeric) `SS_optimal` for every
row whose statistics are all present with a non-negative lead time, but a
row whose `avg_lead_time` is missing (e.g. unmatched by the joins)
receives a missing `SS_optimal`, not a finite one. -/
theorem C9_amended (t : Table ℝ) (sl mss mult dvf ltf : ℝ) (i : Nat)
    (hWF : t.WF) (hi : i < t.rows.length)
    (h1 : "avg_monthly_demand" ∈ t.cols) (h2 : "demand_std" ∈ t.cols)
    (h3 : "avg_lead_time" ∈ t.cols) (h4 : "lead_time_std" ∈ t.cols) :
    (∀ ds ls l a : ℝ,
      tableAt t i "demand_std" = .num ds →
      tableAt t i "lead_time_std" = .num ls →
      tableAt t i "avg_lead_time" = .num l → 0 ≤ l →
      tableAt t i "avg_monthly_demand" = .num a →
      isNumValue (tableAt (method5_compute_ss t sl mss mult dvf ltf) i
        "SS_optimal") = true)
    ∧ (tableAt t i "avg_lead_time" = .na →
      tableAt (method5_compute_ss t sl mss mult dvf ltf) i "SS_optimal"
        = .na) := by
  obtain ⟨-, -, h3', -, -, -, -⟩ :=
    method5_rowEval t sl mss mult dvf ltf i hWF hi h1 h2 h3 h4
  constructor
  · intro ds ls l a hds hls hl hl0 ha
    have hcs : cellSqrt (.num l) = .num (Real.sqrt l) := by
      simp [cellSqrt, hl0]
    rw [h3', hds, hls, hl, ha, hcs]
    simp only [cellMul, cellAdd]
    rw [clipCell_num]
    rfl
  · intro hna
    rw [h3', hna, show cellSqrt (Cell.na) = (Cell.na : Cell ℝ) from rfl,
      cellMul_na_right, clipCell_na]

/-- Witness for C9 on `Thund`: all statistics present and numeric, so the
output `SS_optimal` is a finite number. -/
theorem C9_witness :
    isNumValue (tableAt (method5_compute_ss Thund 0.95 5 4 1 1) 0
      "SS_optimal") = true :=
  (C9_amended Thund 0.95 5 4 1 1 0 (by decide) (by decide) (by decide)
    (by decide) (by decide) (by decide)).1 10 0 1 100 rfl rfl rfl
    (by norm_num) rfl

/-! ## Fallback-policy helpers for C4 -/

theorem mem_setCol_cols_iff {α : Type} {t : Table α} {c c' : String}
    {vs : List (Cell α)} : c' ∈ (t.setCol c vs).cols ↔ c' ∈ t.cols ∨ c' = c := by
  by_cases h : c ∈ t.cols
  · rw [setCol_cols_of_mem h]
    constructor
    · exact Or.inl
    · rintro (h' | rfl)
      · exact h'
      · exact h
  · rw [setCol_cols_of_not_mem h]
    simp

theorem fallbackAMD_mem_iff {t : Table ℝ} {c : String} :
    c ∈ (fallbackAMD t).cols ↔ c ∈ t.cols ∨ c = "avg_monthly_demand" := by
  unfold fallbackAMD
  by_cases h : "avg_monthly_demand" ∈ t.cols
  · simp only [h, if_true]
    constructor
    · exact Or.inl
    · rintro (h' | rfl)
      · exact h'
      · exact h
  · cases hfn : firstNumericCol t <;> simp only [h, if_false, hfn] <;>
      exact mem_setCol_cols_iff

theorem fallbackDS_mem_iff {t : Table ℝ} {c : String} :
    c ∈ (fallbackDS t).cols ↔ c ∈ t.cols ∨ c = "demand_std" := by
  unfold fallbackDS
  by_cases h : "demand_std" ∈ t.cols
  · simp only [h, if_true]
    constructor
    · exact Or.inl
    · rintro (h' | rfl)
      · exact h'
      · exact h
  · simp only [h, if_false]
    exact mem_setCol_cols_iff

theorem fallbackALT_mem_iff {t : Table ℝ} {c : String} :
    c ∈ (fallbackALT t).cols ↔ c ∈ t.cols ∨ c = "avg_lead_time" := by
  unfold fallbackALT
  by_cases h : "avg_lead_time" ∈ t.cols
  · simp only [h, if_true]
    constructor
    · exact Or.inl
    · rintro (h' | rfl)
      · exact h'
      · exact h
  · simp only [h, if_false]
    exact mem_setCol_cols_iff

/-- The three statistics-writing steps leave any column other than
`risk_index`, `SS_raw` and `SS_optimal` as the fallback block produced
it. -/
theorem method5_at_stats {t : Table ℝ} {sl mss mult dvf ltf : ℝ}
    {c : String} {i : Nat}
    (hc1 : c ≠ "risk_index") (hc2 : c ≠ "SS_raw") (hc3 : c ≠ "SS_optimal")
    (hWF : t.WF) (hi : i < t.rows.length) :
    tableAt (method5_compute_ss t sl mss mult dvf ltf) i c
      = tableAt (deriveFallbacks t) i c := by
  have hWFd : (deriveFallbacks t).WF := deriveFallbacks_WF hWF
  have hid : i < (deriveFallbacks t).rows.length := by
    rw [deriveFallbacks_len]; exact hi
  have hWF1 : (addRiskIndex dvf ltf (deriveFallbacks t)).WF :=
    addRiskIndex_WF hWFd
  have hi1 : i < (addRiskIndex dvf ltf (deriveFallbacks t)).rows.length := by
    rw [addRiskIndex_len]; exact hid
  have hWF2 : (addSSRaw sl (addRiskIndex dvf ltf (deriveFallbacks t))).WF :=
    addSSRaw_WF hWF1
  have hi2 : i < (addSSRaw sl
      (addRiskIndex dvf ltf (deriveFallbacks t))).rows.length := by
    rw [addSSRaw_len]; exact hi1
  have hm : method5_compute_ss t sl mss mult dvf ltf
      = addSSOptimal mss mult
        (addSSRaw sl (addRiskIndex dvf ltf (deriveFallbacks t))) := rfl
  rw [hm, addSSOptimal_at_ne hc3 hWF2 hi2, addSSRaw_at_ne hc2 hWF1 hi1,
    addRiskIndex_at_ne hc1 hWFd hid]

theorem deriveFallbacks_at_amd {t : Table ℝ} {i : Nat} (hWF : t.WF)
    (hi : i < t.rows.length) :
    tableAt (deriveFallbacks t) i "avg_monthly_demand"
      = tableAt (fallbackAMD t) i "avg_monthly_demand" := by
  have hWFA : (fallbackAMD t).WF := fallbackAMD_WF hWF
  have hiA : i < (fallbackAMD t).rows.length := by
    rw [fallbackAMD_len]; exact hi
  have hWFB : (fallbackDS (fallbackAMD t)).WF := fallbackDS_WF hWFA
  have hiB : i < (fallbackDS (fallbackAMD t)).rows.length := by
    rw [fallbackDS_len]; exact hiA
  have hWFC : (fallbackALT (fallbackDS (fallbackAMD t))).WF :=
    fallbackALT_WF hWFB
  have hiC : i < (fallbackALT (fallbackDS (fallbackAMD t))).rows.length := by
    rw [fallbackALT_len]; exact hiB
  unfold deriveFallbacks
  rw [fallbackLTS_at_ne (by decide) hWFC hiC,
    fallbackALT_at_ne (by decide) hWFB hiB,
    fallbackDS_at_ne (by decide) hWFA hiA]

theorem deriveFallbacks_at_ds {t : Table ℝ} {i : Nat} (hWF : t.WF)
    (hi : i < t.rows.length) :
    tableAt (deriveFallbacks t) i "demand_std"
      = tableAt (fallbackDS (fallbackAMD t)) i "demand_std" := by
  have hWFB : (fallbackDS (fallbackAMD t)).WF :=
    fallbackDS_WF (fallbackAMD_WF hWF)
  have hiB : i < (fallbackDS (fallbackAMD t)).rows.length := by
    rw [fallbackDS_len, fallbackAMD_len]; exact hi
  have hWFC : (fallbackALT (fallbackDS (fallbackAMD t))).WF :=
    fallbackALT_WF hWFB
  have hiC : i < (fallbackALT (fallbackDS (fallbackAMD t))).rows.length := by
    rw [fallbackALT_len]; exact hiB
  unfold deriveFallbacks
  rw [fallbackLTS_at_ne (by decide) hWFC hiC,
    fallbackALT_at_ne (by decide) hWFB hiB]

theorem deriveFallbacks_at_alt {t : Table ℝ} {i : Nat} (hWF : t.WF)
    (hi : i < t.rows.length) :
    tableAt (deriveFallbacks t) i "avg_lead_time"
      = tableAt (fallbackALT (fallbackDS (fallbackAMD t))) i
        "avg_lead_time" := by
  have hWFC : (fallbackALT (fallbackDS (fallbackAMD t))).WF :=
    fallbackALT_WF (fallbackDS_WF (fallbackAMD_WF hWF))
  have hiC : i < (fallbackALT (fallbackDS (fallbackAMD t))).rows.length := by
    rw [fallbackALT_len, fallbackDS_len, fallbackAMD_len]; exact hi
  unfold deriveFallbacks
  rw [fallbackLTS_at_ne (by decide) hWFC hiC]

/-- C4: each of the four canonical measures is synthesized only when its
column is absent from the working table, independently per column:
`avg_monthly_demand` falls back to the absolute value of the first purely
numeric column (`0.0` for every row when none exists), `demand_std` to
`0.5 * avg_monthly_demand`, `avg_lead_time` to the constant `1.0`,
`lead_time_std` to `0.3 * avg_lead_time`; canonical columns that exist
keep their values untouched. -/
theorem C4_fallbacks (t : Table ℝ) (sl mss mult dvf ltf : ℝ) (hWF : t.WF) :
    ("avg_monthly_demand" ∈ t.cols → ∀ i, i < t.rows.length →
      tableAt (method5_compute_ss t sl mss mult dvf ltf) i
        "avg_monthly_demand" = tableAt t i "avg_monthly_demand")
    ∧ ("avg_monthly_demand" ∉ t.cols → ∀ c0, firstNumericCol t = some c0 →
      ∀ i, i < t.rows.length →
      tableAt (method5_compute_ss t sl mss mult dvf ltf) i
        "avg_monthly_demand" = cellAbs (tableAt t i c0))
    ∧ ("avg_monthly_demand" ∉ t.cols → firstNumericCol t = none →
      ∀ i, i < t.rows.length →
      tableAt (method5_compute_ss t sl mss mult dvf ltf) i
        "avg_monthly_demand" = .num 0)
    ∧ ("demand_std" ∈ t.cols → ∀ i, i < t.rows.length →
      tableAt (method5_compute_ss t sl mss mult dvf ltf) i "demand_std"
        = tableAt t i "demand_std")
    ∧ ("demand_std" ∉ t.cols → ∀ i, i < t.rows.length →
      tableAt (method5_compute_ss t sl mss mult dvf ltf) i "demand_std"
        = cellMul (tableAt (method5_compute_ss t sl mss mult dvf ltf) i
            "avg_monthly_demand") (.num 0.5))
    ∧ ("avg_lead_time" ∈ t.cols → ∀ i, i < t.rows.length →
      tableAt (method5_compute_ss t sl mss mult dvf ltf) i "avg_lead_time"
        = tableAt t i "avg_lead_time")
    ∧ ("avg_lead_time" ∉ t.cols → ∀ i, i < t.rows.length →
      tableAt (method5_compute_ss t sl mss mult dvf ltf) i "avg_lead_time"
        = .num 1.0)
    ∧ ("lead_time_std" ∈ t.cols → ∀ i, i < t.rows.length →
      tableAt (method5_compute_ss t sl mss mult dvf ltf) i "lead_time_std"
        = tableAt t i "lead_time_std")
    ∧ ("lead_time_std" ∉ t.cols → ∀ i, i < t.rows.length →
      tableAt (method5_compute_ss t sl mss mult dvf ltf) i "lead_time_std"
        = cellMul (tableAt (method5_compute_ss t sl mss mult dvf ltf) i
            "avg_lead_time") (.num 0.3)) := by
  refine ⟨?_, ?_, ?_, ?_, ?_, ?_, ?_, ?_, ?_⟩
  · intro h i hi
    rw [method5_at_stats (by decide) (by decide) (by decide) hWF hi,
      deriveFallbacks_at_amd hWF hi, fallbackAMD_of_present h]
  · intro h c0 hfn i hi
    rw [method5_at_stats (by decide) (by decide) (by decide) hWF hi,
      deriveFallbacks_at_amd hWF hi,
      fallbackAMD_at_absent_some h hfn hWF hi]
  · intro h hfn i hi
    rw [method5_at_stats (by decide) (by decide) (by decide) hWF hi,
      deriveFallbacks_at_amd hWF hi,
      fallbackAMD_at_absent_none h hfn hWF hi]
  · intro h i hi
    rw [method5_at_stats (by decide) (by decide) (by decide) hWF hi,
      deriveFallbacks_at_ds hWF hi,
      fallbackDS_of_present (fallbackAMD_mem_mono h),
      fallbackAMD_at_ne (by decide) hWF hi]
  · intro h i hi
    have hnotA : "demand_std" ∉ (fallbackAMD t).cols := by
      rw [fallbackAMD_mem_iff]
      rintro (h' | h')
      · exact h h'
      · exact absurd h' (by decide)
    have hWFA : (fallbackAMD t).WF := fallbackAMD_WF hWF
    have hiA : i < (fallbackAMD t).rows.length := by
      rw [fallbackAMD_len]; exact hi
    rw [method5_at_stats (by decide) (by decide) (by decide) hWF hi,
      deriveFallbacks_at_ds hWF hi, fallbackDS_at_absent hnotA hWFA hiA,
      method5_at_stats (by decide) (by decide) (by decide) hWF hi,
      deriveFallbacks_at_amd hWF hi]
  · intro h i hi
    rw [method5_at_stats (by decide) (by decide) (by decide) hWF hi,
      deriveFallbacks_at_alt hWF hi,
      fallbackALT_of_present
        (fallbackDS_mem_mono (fallbackAMD_mem_mono h)),
      fallbackDS_at_ne (by decide) (fallbackAMD_WF hWF)
        (by rw [fallbackAMD_len]; exact hi),
      fallbackAMD_at_ne (by decide) hWF hi]
  · intro h i hi
    have hnotB : "avg_lead_time" ∉ (fallbackDS (fallbackAMD t)).cols := by
      rw [fallbackDS_mem_iff, fallbackAMD_mem_iff]
      rintro ((h' | h') | h')
      · exact h h'
      · exact absurd h' (by decide)
      · exact absurd h' (by decide)
    have hWFB : (fallbackDS (fallbackAMD t)).WF :=
      fallbackDS_WF (fallbackAMD_WF hWF)
    have hiB : i < (fallbackDS (fallbackAMD t)).rows.length := by
      rw [fallbackDS_len, fallbackAMD_len]; exact hi
    rw [method5_at_stats (by decide) (by decide) (by decide) hWF hi,
      deriveFallbacks_at_alt hWF hi, fallbackALT_at_absent hnotB hWFB hiB]
  · intro h i hi
    have hWFC : (fallbackALT (fallbackDS (fallbackAMD t))).WF :=
      fallbackALT_WF (fallbackDS_WF (fallbackAMD_WF hWF))
    have hiC : i < (fallbackALT (fallbackDS (fallbackAMD t))).rows.length := by
      rw [fallbackALT_len, fallbackDS_len, fallbackAMD_len]; exact hi
    have hm : tableAt (method5_compute_ss t sl mss mult dvf ltf) i
        "lead_time_std" = tableAt (deriveFallbacks t) i "lead_time_std" :=
      method5_at_stats (by decide) (by decide) (by decide) hWF hi
    rw [hm]
    unfold deriveFallbacks
    rw [fallbackLTS_of_present (fallbackALT_mem_mono (fallbackDS_mem_mono
      (fallbackAMD_mem_mono h))),
      fallbackALT_at_ne (by decide) (fallbackDS_WF (fallbackAMD_WF hWF))
        (by rw [fallbackDS_len, fallbackAMD_len]; exact hi),
      fallbackDS_at_ne (by decide) (fallbackAMD_WF hWF)
        (by rw [fallbackAMD_len]; exact hi),
      fallbackAMD_at_ne (by decide) hWF hi]
  · intro h i hi
    have hnotC : "lead_time_std"
        ∉ (fallbackALT (fallbackDS (fallbackAMD t))).cols := by
      rw [fallbackALT_mem_iff, fallbackDS_mem_iff, fallbackAMD_mem_iff]
      rintro (((h' | h') | h') | h')
      · exact h h'
      · exact absurd h' (by decide)
      · exact absurd h' (by decide)
      · exact absurd h' (by decide)
    have hWFC : (fallbackALT (fallbackDS (fallbackAMD t))).WF :=
      fallbackALT_WF (fallbackDS_WF (fallbackAMD_WF hWF))
    have hiC : i < (fallbackALT (fallbackDS (fallbackAMD t))).rows.length := by
      rw [fallbackALT_len, fallbackDS_len, fallbackAMD_len]; exact hi
    have hm : tableAt (method5_compute_ss t sl mss mult dvf ltf) i
        "lead_time_std" = tableAt (deriveFallbacks t) i "lead_time_std" :=
      method5_at_stats (by decide) (by decide) (by decide) hWF hi
    rw [hm]
    unfold deriveFallbacks
    rw [fallbackLTS_at_absent hnotC hWFC hiC,
      ← deriveFallbacks_at_alt hWF hi,
      ← method5_at_stats (c := "avg_lead_time") (by decide) (by decide)
        (by decide) hWF hi]

/-- Concrete sales-like table without canonical statistics: a string key
column, a numeric `units_sold` column (the first numeric one) and an
`avg_lead_time` column. -/
def Tsales : Table ℝ :=
  ⟨["material_shop", "units_sold", "avg_lead_time"],
    [[.str "A1_Shop1", .num (-2), .num 4]]⟩

/-- Witness for C4 on `Tsales`: the demand fallbacks activate from
`units_sold`, the present `avg_lead_time` is untouched, and the missing
`lead_time_std` is synthesized from it. -/
theorem C4_witness :
    tableAt (method5_compute_ss Tsales 0.95 0 4 1 1) 0 "avg_monthly_demand"
      = cellAbs (.num (-2))
    ∧ tableAt (method5_compute_ss Tsales 0.95 0 4 1 1) 0 "avg_lead_time"
      = .num 4
    ∧ tableAt (method5_compute_ss Tsales 0.95 0 4 1 1) 0 "lead_time_std"
      = cellMul (.num 4) (.num 0.3) := by
  obtain ⟨-, h2, -, -, -, h6, -, -, h9⟩ :=
    C4_fallbacks Tsales 0.95 0 4 1 1 (by decide)
  have hamd : tableAt (method5_compute_ss Tsales 0.95 0 4 1 1) 0
      "avg_monthly_demand" = cellAbs (.num (-2)) := by
    rw [h2 (by decide) "units_sold" (by decide) 0 (by decide)]
    rfl
  have halt : tableAt (method5_compute_ss Tsales 0.95 0 4 1 1) 0
      "avg_lead_time" = .num 4 := by
    rw [h6 (by decide) 0 (by decide)]
    rfl
  have hlts : tableAt (method5_compute_ss Tsales 0.95 0 4 1 1) 0
      "lead_time_std" = cellMul (.num 4) (.num 0.3) := by
    rw [h9 (by decide) 0 (by decide), halt]
  exact ⟨hamd, halt, hlts⟩

/-- C8 amended: the result filter equals a single order-preserving
`List.filter` over the rows, keeping exactly those whose key value (as a
string) matches the search term as a case-insensitive REGULAR EXPRESSION
search (the empty term matches everything) AND whose `SS_optimal` is at
least the threshold (inclusive; missing values are dropped).  For a term
without regex metacharacters this containment coincides with substring
containment, but not in general. -/
theorem C8_amended {α : Type} [LinearOrder α] (t : Table α)
    (key pat : String) (thr : α) :
    resultFilter t key pat thr
      = ⟨t.cols, t.rows.filter (fun r =>
          (decide (pat = "") || strContainsCI (cellToStr (getCell t.cols r key)) pat)
          && cellGe (getCell t.cols r "SS_optimal") thr)⟩ := by
  by_cases hp : pat = ""
  · subst hp
    simp [resultFilter]
  · simp only [resultFilter, if_pos (show pat ≠ "" from hp)]
    rw [List.filter_filter]
    have : (fun r => cellGe (getCell t.cols r "SS_optimal") thr
          && strContainsCI (cellToStr (getCell t.cols r key)) pat)
        = (fun r => (decide (pat = "")
            || strContainsCI (cellToStr (getCell t.cols r key)) pat)
          && cellGe (getCell t.cols r "SS_optimal") thr) := by
      funext r
      simp [hp, Bool.and_comm]
    rw [this]

/-! ## Merge-shape helpers for C2 and C6 -/

/-- Column name at a positional index (empty when out of range). -/
def strAt : List String → Nat → String
  | [], _ => ""
  | s :: _, 0 => s
  | _ :: l, n + 1 => strAt l n

theorem strAt_idxOfCol {c : String} : ∀ {l : List String}, c ∈ l →
    strAt l (idxOfCol c l) = c := by
  intro l
  induction l with
  | nil => intro h; cases h
  | cons x xs ih =>
    intro h
    by_cases hx : x = c
    · simp [idxOfCol, strAt, hx]
    · have : c ∈ xs := by
        rcases List.mem_cons.mp h with h' | h'
        · exact absurd h'.symm hx
        · exact h'
      simp [idxOfCol, strAt, hx, ih this]

theorem strAt_map {f : String → String} : ∀ {l : List String} {i : Nat},
    i < l.length → strAt (l.map f) i = f (strAt l i) := by
  intro l
  induction l with
  | nil => intro i h; simp at h
  | cons x xs ih =>
    intro i h
    cases i with
    | zero => rfl
    | succ n => exact ih (by simpa using Nat.lt_of_succ_lt_succ h)

theorem strAt_mem : ∀ {l : List String} {i : Nat}, i < l.length →
    strAt l i ∈ l := by
  intro l
  induction l with
  | nil => intro i h; simp at h
  | cons x xs ih =>
    intro i h
    cases i with
    | zero => exact List.mem_cons_self _ _
    | succ n =>
      exact List.mem_cons_of_mem _ (ih (by simpa using Nat.lt_of_succ_lt_succ h))

theorem strAt_mem_eraseIdx : ∀ {l : List String} {i j : Nat},
    i < l.length → i ≠ j → strAt l i ∈ l.eraseIdx j := by
  intro l
  induction l with
  | nil => intro i j h _; simp at h
  | cons x xs ih =>
    intro i j h hij
    cases j with
    | zero =>
      cases i with
      | zero => exact absurd rfl hij
      | succ n =>
        simpa [List.eraseIdx, strAt] using
          strAt_mem (l := xs) (by simpa using Nat.lt_of_succ_lt_succ h)
    | succ m =>
      cases i with
      | zero => exact List.mem_cons_self _ _
      | succ n =>
        exact List.mem_cons_of_mem _
          (ih (by simpa using Nat.lt_of_succ_lt_succ h) (fun hnm => hij (by omega)))

/-- When the accumulated and incoming tables share no non-key column,
pandas' automatic `_x`/`_y` disambiguation is inert and the merged column
list is the left columns followed by the right columns minus the key. -/
theorem mergeLeft_cols_no_overlap {α : Type} [DecidableEq α]
    (left right : Table α) (key : String)
    (hov : ∀ c, ¬(c ≠ key ∧ c ∈ left.cols ∧ c ∈ right.cols)) :
    (mergeLeft left right key).cols
      = left.cols ++ right.cols.eraseIdx (idxOfCol key right.cols) := by
  have hl : left.cols.map
      (fun c => if c ≠ key ∧ c ∈ left.cols ∧ c ∈ right.cols
        then c ++ "_x" else c) = left.cols := by
    rw [List.map_congr_left (fun c _ => if_neg (hov c))]
    exact List.map_id _
  have hr : right.cols.map
      (fun c => if c ≠ key ∧ c ∈ left.cols ∧ c ∈ right.cols
        then c ++ "_y" else c) = right.cols := by
    rw [List.map_congr_left (fun c _ => if_neg (hov c))]
    exact List.map_id _
  simp only [mergeLeft]
  rw [hl, hr]

/-- Every merged row is some left row with a payload appended. -/
theorem mergeLeft_rows_shape {α : Type} [DecidableEq α]
    (left right : Table α) (key : String) :
    ∀ r ∈ (mergeLeft left right key).rows,
      ∃ lr ∈ left.rows, ∃ pay : Row α, r = lr ++ pay := by
  intro r hr
  simp only [mergeLeft] at hr
  rcases List.mem_flatMap.mp hr with ⟨lr, hlr, hmem⟩
  refine ⟨lr, hlr, ?_⟩
  rcases hfil : right.rows.filter
      (fun rr => cellAt rr (idxOfCol key right.cols)
        = cellAt lr (idxOfCol key left.cols)) with _ | ⟨hd, tl⟩ <;>
    rw [hfil] at hmem
  · simp only [List.mem_singleton] at hmem
    exact ⟨_, hmem⟩
  · rcases List.mem_map.mp hmem with ⟨rr, -, hrr⟩
    exact ⟨_, hrr.symm⟩

/-- C6 amended: in a merge step, a non-key column `X` shared by the
accumulated table and the incoming table is renamed with the
source-specific suffix in the incoming table, so the merged table
contains both `X` (with the accumulated table's values, not overwritten)
and `X ++ suffix` — PROVIDED no renamed column collides with a column the
accumulated table already has (otherwise pandas disambiguates the
colliding pair with `_x`/`_y` and the suffixed name is absent). -/
theorem C6_amended {α : Type} [DecidableEq α] (left right : Table α)
    (key suffix0 X : String) (hWFl : left.WF)
    (hkL : key ∈ left.cols) (hkR : key ∈ right.cols)
    (hXl : X ∈ left.cols) (hXr : X ∈ right.cols) (hXk : X ≠ key)
    (hfresh : ∀ c ∈ right.cols, (c ++ suffix0) ∉ left.cols) :
    X ∈ (safe_merge left right key suffix0).cols
    ∧ (X ++ suffix0) ∈ (safe_merge left right key suffix0).cols
    ∧ ∀ r ∈ (safe_merge left right key suffix0).rows,
        ∃ lr ∈ left.rows,
          getCell (safe_merge left right key suffix0).cols r X
            = getCell left.cols lr X := by
  have hA : ∀ c' ∈ renameShared left.cols key suffix0 right.cols,
      c' = key ∨ c' ∉ left.cols := by
    intro c' hc'
    rcases List.mem_map.mp hc' with ⟨c, hc, rfl⟩
    by_cases hcc : c ∈ left.cols ∧ c ≠ key
    · rw [if_pos hcc]
      exact Or.inr (hfresh c hc)
    · rw [if_neg hcc]
      rcases not_and_or.mp hcc with h' | h'
      · exact Or.inr h'
      · exact Or.inl (not_not.mp h')
  have hov : ∀ c, ¬(c ≠ key ∧ c ∈ left.cols
      ∧ c ∈ (Table.mk (renameShared left.cols key suffix0 right.cols)
          right.rows : Table α).cols) := by
    rintro c ⟨hck, hcl, hcr⟩
    rcases hA c hcr with rfl | h'
    · exact hck rfl
    · exact h' hcl
  have hcols : (safe_merge left right key suffix0).cols
      = left.cols ++ (renameShared left.cols key suffix0 right.cols).eraseIdx
          (idxOfCol key (renameShared left.cols key suffix0 right.cols)) := by
    simp only [safe_merge]
    exact mergeLeft_cols_no_overlap left _ key hov
  have hkey' : key ∈ renameShared left.cols key suffix0 right.cols := by
    refine List.mem_map.mpr ⟨key, hkR, ?_⟩
    rw [if_neg]
    rintro ⟨-, hkk⟩
    exact hkk rfl
  refine ⟨?_, ?_, ?_⟩
  · rw [hcols]
    exact List.mem_append_left _ hXl
  · rw [hcols]
    refine List.mem_append_right _ ?_
    have hp : idxOfCol X right.cols < right.cols.length :=
      idxOfCol_lt_length hXr
    have hp' : idxOfCol X right.cols
        < (renameShared left.cols key suffix0 right.cols).length := by
      rw [renameShared, List.length_map]
      exact hp
    have hval : strAt (renameShared left.cols key suffix0 right.cols)
        (idxOfCol X right.cols) = X ++ suffix0 := by
      rw [renameShared, strAt_map hp, strAt_idxOfCol hXr, if_pos ⟨hXl, hXk⟩]
    have hne : idxOfCol X right.cols
        ≠ idxOfCol key (renameShared left.cols key suffix0 right.cols) := by
      intro h
      have := hval
      rw [h, strAt_idxOfCol hkey'] at this
      exact hfresh X hXr (this ▸ hkL)
    have := strAt_mem_eraseIdx hp' hne
    rw [hval] at this
    exact this
  · intro r hr
    have hshape : ∃ lr ∈ left.rows, ∃ pay : Row α, r = lr ++ pay := by
      apply mergeLeft_rows_shape left _ key
      simpa only [safe_merge] using hr
    rcases hshape with ⟨lr, hlr, pay, rfl⟩
    refine ⟨lr, hlr, ?_⟩
    rw [hcols]
    unfold getCell
    rw [idxOfCol_append_left hXl]
    exact cellAt_append_left ((hWFl lr hlr).symm ▸ idxOfCol_lt_length hXl)

/-- Left table for the C6 witness. -/
def L6 : Table ℚ := ⟨["material_shop", "X"], [[.str "A", .num 1]]⟩

/-- Right table for the C6 witness. -/
def R6 : Table ℚ := ⟨["material_shop", "X"], [[.str "A", .num 2]]⟩

/-- Witness for C6: with no residual collision, the merge of two tables
sharing the non-key column `X` keeps `X` and adds `X_pm`, and the `X`
values come from the left rows. -/
theorem C6_witness :
    "X" ∈ (safe_merge L6 R6 "material_shop" "_pm").cols
    ∧ ("X" ++ "_pm") ∈ (safe_merge L6 R6 "material_shop" "_pm").cols
    ∧ ∀ r ∈ (safe_merge L6 R6 "material_shop" "_pm").rows,
        ∃ lr ∈ L6.rows,
          getCell (safe_merge L6 R6 "material_shop" "_pm").cols r "X"
            = getCell L6.cols lr "X" :=
  C6_amended L6 R6 "material_shop" "_pm" "X" (by decide) (by decide)
    (by decide) (by decide) (by decide) (by decide) (by decide)

/-- Sales-history table for the C6 counterexample: it already has an
`X_pm` column. -/
def S6 : Table ℚ :=
  ⟨["material_shop", "X", "X_pm"], [[.str "A", .num 1, .num 2]]⟩

/-- Auxiliary key-only table for the C6 counterexample. -/
def F6 : Table ℚ := ⟨["material_shop"], []⟩

/-- Products-master table for the C6 counterexample, sharing the non-key
column `X` with the sales history. -/
def P6 : Table ℚ := ⟨["material_shop", "X"], [[.str "A", .num 7]]⟩

/-- C6 counterexample: `products_master` and `sales_history` share the
non-key column `X`, yet the joined table does NOT contain `X_pm` — the
sales history already had an `X_pm` column, so pandas renames the
colliding pair to `X_pm_x`/`X_pm_y`. -/
theorem C6_counterexample :
    (joinEngine S6 F6 P6 F6 F6).map (fun u => decide ("X_pm" ∈ u.cols))
      = some false
    ∧ (joinEngine S6 F6 P6 F6 F6).map
        (fun u => decide ("X" ∈ u.cols ∧ "X_pm_x" ∈ u.cols ∧ "X_pm_y" ∈ u.cols))
      = some true
    ∧ "X" ∈ S6.cols ∧ "X" ∈ P6.cols ∧ "X" ≠ "material_shop" := by decide

theorem append_suffix_data {c s k : String} (h : c ++ s = k) :
    k.data.drop (k.data.length - s.data.length) = s.data := by
  have hd : c.data ++ s.data = k.data := by rw [← h, String.data_append]
  rw [← hd, List.length_append]
  have hc : c.data.length + s.data.length - s.data.length = c.data.length := by
    omega
  rw [hc, List.drop_left]

/-- No column name extended with one of the four merge suffixes can equal
a resolved join key (the accepted key aliases do not end in a suffix). -/
theorem no_alias_key {key suf : String} (hk : key ∈ POTENTIAL_KEYS)
    (hs : suf ∈ ["_fcst", "_pm", "_pl", "_lt"]) (c : String) :
    c ++ suf ≠ key := by
  intro h
  have hd := append_suffix_data h
  simp only [POTENTIAL_KEYS, List.mem_cons, List.not_mem_nil, or_false]
    at hk hs
  rcases hk with rfl | rfl | rfl | rfl <;> rcases hs with rfl | rfl | rfl | rfl <;>
    exact absurd hd (by decide)

theorem idxOfCol_map_key {rn : String → String} {key : String}
    (hrn : ∀ c, rn c = key ↔ c = key) : ∀ l : List String,
    idxOfCol key (l.map rn) = idxOfCol key l := by
  intro l
  induction l with
  | nil => rfl
  | cons x xs ih =>
    simp only [List.map_cons, idxOfCol]
    by_cases hx : x = key
    · rw [if_pos ((hrn x).mpr hx), if_pos hx]
    · rw [if_neg (fun hh => hx ((hrn x).mp hh)), if_neg hx, ih]

theorem renameShared_keyIdx (leftCols : List String) (key suf : String)
    (rightCols : List String) (hna : ∀ c, c ++ suf ≠ key) :
    idxOfCol key (renameShared leftCols key suf rightCols)
      = idxOfCol key rightCols := by
  apply idxOfCol_map_key
  intro c
  constructor
  · intro h
    by_cases hcc : c ∈ leftCols ∧ c ≠ key
    · rw [if_pos hcc] at h
      exact absurd h (hna c)
    · rwa [if_neg hcc] at h
  · rintro rfl
    rw [if_neg]
    rintro ⟨-, hkk⟩
    exact hkk rfl

theorem filter_keyval_length_le_one {β γ : Type} [DecidableEq γ]
    (f : β → γ) : ∀ l : List β, (l.map f).Nodup → ∀ v : γ,
    (l.filter (fun r => f r = v)).length ≤ 1 := by
  intro l
  induction l with
  | nil => intro _ v; simp
  | cons x xs ih =>
    intro hnd v
    rw [List.map_cons, List.nodup_cons] at hnd
    rw [List.filter_cons]
    by_cases hx : f x = v
    · have hrest : xs.filter (fun r => decide (f r = v)) = [] := by
        rw [List.filter_eq_nil_iff]
        intro r hr hfr
        exact hnd.1 (List.mem_map.mpr ⟨r, hr,
          by rw [of_decide_eq_true hfr, hx]⟩)
      simp [hx, hrest]
    · simpa [hx] using ih hnd.2 v

theorem length_flatMap_one {β γ : Type} (g : β → List γ) :
    ∀ L : List β, (∀ b ∈ L, (g b).length = 1) →
    (L.flatMap g).length = L.length := by
  intro L
  induction L with
  | nil => intro _; rfl
  | cons x xs ih =>
    intro h
    rw [List.flatMap_cons, List.length_append, h x (List.mem_cons_self _ _),
      ih (fun b hb => h b (List.mem_cons_of_mem _ hb)), List.length_cons]
    omega

/-- A left merge preserves the left row count when the right table's key
values are pairwise distinct. -/
theorem mergeLeft_length {α : Type} [DecidableEq α] (left right : Table α)
    (key : String)
    (hnd : (right.rows.map
      (fun rr => cellAt rr (idxOfCol key right.cols))).Nodup) :
    (mergeLeft left right key).rows.length = left.rows.length := by
  simp only [mergeLeft]
  apply length_flatMap_one
  intro lr hlr
  have hle := filter_keyval_length_le_one
    (fun rr => cellAt rr (idxOfCol key right.cols)) right.rows hnd
    (cellAt lr (idxOfCol key left.cols))
  rcases hfil : right.rows.filter
      (fun rr => cellAt rr (idxOfCol key right.cols)
        = cellAt lr (idxOfCol key left.cols)) with _ | ⟨hd, tl⟩
  · rfl
  · rw [hfil, List.length_cons] at hle
    simp only [List.length_map, List.length_cons]
    omega

theorem safe_merge_length {α : Type} [DecidableEq α] (left right : Table α)
    (key suf : String) (hna : ∀ c, c ++ suf ≠ key)
    (hnd : (right.rows.map
      (fun rr => cellAt rr (idxOfCol key right.cols))).Nodup) :
    (safe_merge left right key suf).rows.length = left.rows.length := by
  simp only [safe_merge]
  apply mergeLeft_length
  have hidx := renameShared_keyIdx left.cols key suf right.cols hna
  have : (fun rr : Row α => cellAt rr
        (idxOfCol key (renameShared left.cols key suf right.cols)))
      = (fun rr : Row α => cellAt rr (idxOfCol key right.cols)) :=
    funext (fun rr => by rw [hidx])
  rw [show (Table.mk (renameShared left.cols key suf right.cols)
      right.rows : Table α).rows = right.rows from rfl, this]
  exact hnd

/-- C2 amended: the Join Engine's output has exactly as many rows as the
sales history PROVIDED each auxiliary table contains the join-key column
and has at most one row per key value.  (An auxiliary table with
duplicate key values multiplies the matching sales rows, and one without
the key column aborts the run.) -/
theorem C2_amended {α : Type} [DecidableEq α]
    (sales fcst pm pl lt : Table α) (out : Table α) (key : String)
    (hkey : joinKeyOf sales.cols = some key)
    (hout : joinEngine sales fcst pm pl lt = some out)
    (hnd1 : (fcst.rows.map
      (fun rr => cellAt rr (idxOfCol key fcst.cols))).Nodup)
    (hnd2 : (pm.rows.map
      (fun rr => cellAt rr (idxOfCol key pm.cols))).Nodup)
    (hnd3 : (pl.rows.map
      (fun rr => cellAt rr (idxOfCol key pl.cols))).Nodup)
    (hnd4 : (lt.rows.map
      (fun rr => cellAt rr (idxOfCol key lt.cols))).Nodup) :
    out.rows.length = sales.rows.length := by
  have hkmem : key ∈ POTENTIAL_KEYS := List.mem_of_find?_eq_some hkey
  simp only [joinEngine, hkey] at hout
  by_cases hc : key ∈ fcst.cols ∧ key ∈ pm.cols ∧ key ∈ pl.cols
      ∧ key ∈ lt.cols
  · rw [if_pos hc] at hout
    injection hout with h
    rw [← h]
    rw [safe_merge_length _ _ _ _ (no_alias_key hkmem (by decide)) hnd4,
      safe_merge_length _ _ _ _ (no_alias_key hkmem (by decide)) hnd3,
      safe_merge_length _ _ _ _ (no_alias_key hkmem (by decide)) hnd2,
      safe_merge_length _ _ _ _ (no_alias_key hkmem (by decide)) hnd1]
  · rw [if_neg hc] at hout
    cases hout

/-- Sales-history table for the C2 counterexample: one row. -/
def S2 : Table ℚ := ⟨["material_shop"], [[.str "A"]]⟩

/-- Forecast table for the C2 counterexample: two rows with the SAME key
value. -/
def F2 : Table ℚ :=
  ⟨["material_shop", "f"], [[.str "A", .num 1], [.str "A", .num 2]]⟩

/-- Empty key-only auxiliary table. -/
def G2 : Table ℚ := ⟨["material_shop"], []⟩

/-- C2 counterexample: with a non-empty sales history of one row and a
forecast table holding two rows for the same key, the join output has two
rows, not one — a left join does NOT preserve the left cardinality when
the right side has duplicate keys. -/
theorem C2_counterexample :
    (joinEngine S2 F2 G2 G2 G2).map (fun u => u.rows.length) = some 2
    ∧ S2.rows.length = 1 := by decide

/-- Sales-history table for the C2 witness: two rows. -/
def SW : Table ℚ :=
  ⟨["material_shop", "q"], [[.str "A", .num 1], [.str "B", .num 2]]⟩

/-- Forecast table for the C2 witness: unique key values. -/
def FW : Table ℚ := ⟨["material_shop", "f"], [[.str "A", .num 3]]⟩

/-- The join output for the C2 witness inputs. -/
def OUTW : Table ℚ :=
  ⟨["material_shop", "q", "f"],
    [[.str "A", .num 1, .num 3], [.str "B", .num 2, .na]]⟩

/-- Witness for C2: with unique keys in every auxiliary table the join
preserves the sales-history row count. -/
theorem C2_witness : OUTW.rows.length = SW.rows.length :=
  C2_amended SW FW G2 G2 G2 OUTW "material_shop" (by decide) (by decide)
    (by decide) (by decide) (by decide) (by decide)

/-- Concrete filter input: one row keyed `AB` with `SS_optimal = 3`. -/
def Tfil : Table ℚ := ⟨["material_shop", "SS_optimal"], [[.str "AB", .num 3]]⟩

/-- C8 counterexample: with search term `"."`, the code keeps the row
keyed `"AB"` (the term is a regex and `.` matches any character), though
`"."` is not a substring of `"AB"` — so the filter is not the claimed
case-insensitive SUBSTRING containment test. -/
theorem C8_counterexample :
    (resultFilter Tfil "material_shop" "." 0).rows.length = 1
    ∧ specSubstrCI "AB" "." = false
    ∧ strContainsCI "AB" "." = true := by decide

end MEIO
